import Mathlib

/-!
Verification of the content-analysis core of `noc_kbu`
(`src/noc_kbu/agents/content_analyzer.py`).

The Python code is embedded shallowly:

* floats are modelled as rationals (`ℚ`);
* the two machine-learning similarity kernels (`TfidfVectorizer` +
  `cosine_similarity` over titles, `SentenceTransformer.encode` +
  `cosine_similarity` over bodies) are kept as oracle fields of the
  `Analyzer` structure: the code under verification never inspects the
  numeric values it gets back from them, it only routes them through the
  pair loop.  The *guards* around those calls (lines 149–161 of the
  source) are embedded exactly;
* `BeautifulSoup`/`html2text` normalisation of a non-empty body is likewise
  an oracle field (`normalizeHtml`); the `if not html_content: return ""`
  guard of `extract_clean_text` is embedded;
* fallible library calls (`TfidfVectorizer.fit_transform`,
  `datetime.fromtimestamp`) return `Except`, with the exception taxonomy
  modelled from the libraries' documented behaviour (see the individual
  doc comments).
-/

/-- Content quality assessment metrics (dataclass `QualityMetrics`). -/
structure QualityMetrics where
  readability_score : ℚ
  completeness_score : ℚ
  freshness_score : ℚ
  technical_accuracy_score : ℚ
  overall_quality_score : ℚ
  issues : List String
deriving DecidableEq

/-- Similarity comparison result between two articles (dataclass `SimilarityResult`). -/
structure SimilarityResult where
  article_id_1 : String
  article_id_2 : String
  title_similarity : ℚ
  content_similarity : ℚ
  overall_similarity : ℚ
  is_duplicate : Bool
deriving DecidableEq

/-- Group of similar/duplicate articles (dataclass `DuplicateCluster`). -/
structure DuplicateCluster where
  cluster_id : String
  primary_article_id : String
  duplicate_article_ids : List String
  similarity_scores : List ℚ
  recommended_action : String
deriving DecidableEq

/-- Model of the value found under an article's `updated_at` key.  JSON
integers are `int`, any non-numeric JSON value (string, list, …) is
collapsed to `str` since `datetime.fromtimestamp` treats every
non-number uniformly (`TypeError`). -/
inductive Timestamp where
  | int : ℤ → Timestamp
  | str : String → Timestamp
deriving DecidableEq

/-- An input article record.  Fields mirror the dict keys the analyzer
reads via `article.get(...)`; the string fields default to `""` exactly as
`article.get('id', '')` etc. do. -/
structure Article where
  id : String := ""
  title : String := ""
  body : String := ""
  created_at : Option Timestamp := none
  updated_at : Option Timestamp := none
deriving DecidableEq

/-- Python exceptions relevant to the embedded code. -/
inductive PyError where
  | valueError
  | typeError
  | overflowError
deriving DecidableEq

/-- The `ContentAnalyzer` instance state that the analysis functions read
(`__init__`, lines 57–82).  The I/O fields (`input_dir`, `output_dir`) are
irrelevant to the claims and omitted.  `normalizeHtml` is the
deterministic `BeautifulSoup` + `html2text` pipeline applied to a
*non-empty* body; `titleSim`/`contentSim` are the cosine-similarity
matrices produced by the TF-IDF vectorizer over the batch's titles and by
the sentence-transformer embeddings over the batch's cleaned bodies: the
analyzer code treats those numeric values as opaque. -/
structure Analyzer where
  similarity_threshold : ℚ
  quality_threshold : ℚ
  min_content_length : ℕ
  max_content_age_days : ℕ
  normalizeHtml : String → String
  titleSim : List String → ℕ → ℕ → ℚ
  contentSim : List String → ℕ → ℕ → ℚ

/-- Embedding of `ContentAnalyzer.extract_clean_text` (lines 104–123):
the `if not html_content: return ""` guard, followed by the deterministic
HTML-to-text pipeline for non-empty input. -/
def extract_clean_text (A : Analyzer) (html_content : String) : String :=
  if html_content = "" then "" else A.normalizeHtml html_content

/-- Splits a character list at every separator character (those satisfying
`p`), like Python's `str.split(sep)`: `n` separators yield `n + 1`
fragments, empty fragments included. -/
def splitOnSat (p : Char → Bool) : List Char → List (List Char)
  | [] => [[]]
  | c :: cs =>
    match splitOnSat p cs with
    | [] => [[]]
    | f :: rest => if p c then [] :: f :: rest else (c :: f) :: rest

/-- Python's `str.strip()`: drop leading and trailing whitespace. -/
def stripChars (l : List Char) : List Char :=
  ((l.dropWhile Char.isWhitespace).reverse.dropWhile Char.isWhitespace).reverse

/-- Tokens scikit-learn's `TfidfVectorizer` extracts from one document:
maximal runs of word characters (`\w`, modelled as alphanumeric or
underscore) of length at least 2, lowercased (token pattern
`(?u)\b\w\w+\b`).  The vectorizer additionally removes English stop
words; the model omits that filter, so the modelled vocabulary is a
superset of the real one — whenever the model reports an empty
vocabulary the real vectorizer's vocabulary is empty as well. -/
def sklearnTokens (doc : String) : List (List Char) :=
  (splitOnSat (fun c => !(c.isAlphanum || c == '_'))
      (doc.data.map Char.toLower)).filter
    (fun w => decide (2 ≤ w.length))

/-- The joint vocabulary `TfidfVectorizer` would fit on a list of titles. -/
def tfidfVocab (titles : List String) : List (List Char) :=
  titles.flatMap sklearnTokens

/-- Embedding of the title branch, lines 148–154.  `if article_titles:`
only tests that the *list* is non-empty; the vectorizer itself is
modelled from scikit-learn's documented behaviour: `fit_transform`
raises `ValueError` ("empty vocabulary; perhaps the documents only
contain stop words") when no term survives tokenization, and otherwise
yields the title cosine-similarity matrix. -/
def titleSimilarityMatrix (A : Analyzer) (titles : List String) :
    Except PyError (ℕ → ℕ → ℚ) :=
  if titles.isEmpty then
    Except.ok (fun _ _ => 0)
  else if (tfidfVocab titles).isEmpty then
    Except.error PyError.valueError
  else
    Except.ok (A.titleSim titles)

/-- Embedding of the content branch, lines 156–161: the guard
`if article_texts and any(text.strip() for text in article_texts)` selects
the embedding pipeline, otherwise the all-zeros matrix. -/
def contentSimilarityMatrix (A : Analyzer) (texts : List String) : ℕ → ℕ → ℚ :=
  if ¬ texts.isEmpty ∧ texts.any (fun t => !(stripChars t.data).isEmpty) then
    A.contentSim texts
  else
    fun _ _ => 0

/-- The ordered pairs `(i, j)` with `i < j < n`, in the order the double
loop of lines 166–167 (`for i in range(N): for j in range(i+1, N)`)
visits them. -/
def pairsBelow (n : ℕ) : List (ℕ × ℕ) :=
  (List.range n).flatMap (fun i =>
    ((List.range n).filter (fun j => decide (i < j))).map (fun j => (i, j)))

/-- One `SimilarityResult` as built in lines 168–181 for the pair of
input positions `(i, j)`. -/
def mkSimilarityResult (ids : List String) (tS cS : ℕ → ℕ → ℚ) (thr : ℚ)
    (p : ℕ × ℕ) : SimilarityResult :=
  let title_sim := tS p.1 p.2
  let content_sim := cS p.1 p.2
  let overall_sim := title_sim * (3/10) + content_sim * (7/10)
  { article_id_1 := ids.getD p.1 ""
    article_id_2 := ids.getD p.2 ""
    title_similarity := title_sim
    content_similarity := content_sim
    overall_similarity := overall_sim
    is_duplicate := decide (thr ≤ overall_sim) }

/-- The pair loop of lines 163–183, parameterised by the two similarity
matrices. -/
def generateSimilarityResults (ids : List String) (tS cS : ℕ → ℕ → ℚ)
    (thr : ℚ) : List SimilarityResult :=
  (pairsBelow ids.length).map (mkSimilarityResult ids tS cS thr)

/-- Embedding of `ContentAnalyzer.calculate_content_similarity`
(lines 125–186).  The extraction loop (lines 137–146) builds the three
parallel lists; then the two matrices are computed (the title one may
raise) and the pair loop runs. -/
def calculate_content_similarity (A : Analyzer) (articles : List Article) :
    Except PyError (List SimilarityResult) := do
  let article_ids := articles.map (fun a => a.id)
  let article_titles := articles.map (fun a => a.title)
  let article_texts := articles.map (fun a => extract_clean_text A a.body)
  let title_similarities ← titleSimilarityMatrix A article_titles
  let content_similarities := contentSimilarityMatrix A article_texts
  pure (generateSimilarityResults article_ids title_similarities
    content_similarities A.similarity_threshold)

/-- The adjacency structure `article_connections` of
`identify_duplicate_clusters` (lines 202–211): a Python dict, modelled as
an association list so that insertion order of keys — which drives the
outer `for article_id in article_connections:` loop — is preserved. -/
abbrev ConnGraph := List (String × List (String × ℚ))

/-- Models `if k not in article_connections: article_connections[k] = []`. -/
def ensureKey (g : ConnGraph) (k : String) : ConnGraph :=
  if g.any (fun kv => kv.1 == k) then g else g ++ [(k, [])]

/-- Models `article_connections[k].append(v)` for a key already present. -/
def appendVal (g : ConnGraph) (k : String) (v : String × ℚ) : ConnGraph :=
  g.map (fun kv => if kv.1 = k then (kv.1, kv.2 ++ [v]) else kv)

/-- One iteration of the graph-building loop (lines 204–211). -/
def addDuplicate (g : ConnGraph) (d : SimilarityResult) : ConnGraph :=
  let g1 := ensureKey g d.article_id_1
  let g2 := ensureKey g1 d.article_id_2
  let g3 := appendVal g2 d.article_id_1 (d.article_id_2, d.overall_similarity)
  appendVal g3 d.article_id_2 (d.article_id_1, d.overall_similarity)

/-- The adjacency dict built from the duplicate pairs (lines 203–211). -/
def buildConnections (dups : List SimilarityResult) : ConnGraph :=
  dups.foldl addDuplicate []

/-- Models `article_connections.get(current, [])`. -/
def adjList (g : ConnGraph) (x : String) : List (String × ℚ) :=
  match g.find? (fun kv => kv.1 == x) with
  | some kv => kv.2
  | none => []

/-- Every article id mentioned anywhere in the adjacency structure. -/
def graphNodes (g : ConnGraph) : List String :=
  (g.map Prod.fst ++ g.flatMap (fun kv => kv.2.map Prod.fst)).dedup

/-- The inner `for connected_id, _ in article_connections.get(current, [])`
loop (lines 230–233): each yet-unvisited neighbour is added to the
visited set and appended to the queue, in adjacency-list order.  The
state is `(visited, queue)`. -/
def enqueueNew (nbrs : List (String × ℚ)) (vq : List String × List String) :
    List String × List String :=
  nbrs.foldl
    (fun vq p => if p.1 ∈ vq.1 then vq else (p.1 :: vq.1, vq.2 ++ [p.1])) vq

/-- The `while queue:` BFS loop (lines 226–233).  The loop terminates in
Python because every enqueued node is simultaneously marked visited; the
embedding makes that explicit with a fuel argument, returning `none` only
when the fuel runs out with a non-empty queue — `bfsFuel` below is proved
sufficient, so that case is unreachable in `identify_duplicate_clusters`. -/
def bfsLoop (g : ConnGraph) :
    ℕ → List String → List String → List String →
    Option (List String × List String)
  | _, [], visited, acc => some (acc, visited)
  | 0, _ :: _, _, _ => none
  | fuel + 1, current :: rest, visited, acc =>
    let vq := enqueueNew (adjList g current) (visited, rest)
    bfsLoop g fuel vq.2 vq.1 (acc ++ [current])

/-- Fuel that always suffices for `bfsLoop`: one iteration pops one queue
entry, and at most one entry is ever enqueued per distinct node. -/
def bfsFuel (g : ConnGraph) : ℕ :=
  (graphNodes g).length + 1

/-- One whole BFS for a fresh start node (lines 221–233):
`queue = [article_id]`, `visited.add(article_id)`, then the loop.  Returns
`(cluster_articles, visited)`. -/
def runBFS (g : ConnGraph) (start : String) (visited : List String) :
    List String × List String :=
  (bfsLoop g (bfsFuel g) [start] (start :: visited) []).getD
    ([], start :: visited)

/-- Models `np.mean(cluster_scores) if cluster_scores else 0.0` (line 248). -/
def listMean (l : List ℚ) : ℚ :=
  if l.isEmpty then 0 else l.sum / (l.length : ℚ)

/-- The action decision of lines 249–254. -/
def recommendedActionFor (avg_similarity : ℚ) : String :=
  if 95/100 ≤ avg_similarity then "keep_primary"
  else if 85/100 ≤ avg_similarity then "merge"
  else "manual_review"

/-- The score-collection loop of lines 241–245: every duplicate pair with
both endpoints inside `cluster_articles`, in `duplicates` order. -/
def clusterScores (dups : List SimilarityResult)
    (cluster_articles : List String) : List ℚ :=
  (dups.filter (fun d =>
    decide (d.article_id_1 ∈ cluster_articles) &&
    decide (d.article_id_2 ∈ cluster_articles))).map
    (fun d => d.overall_similarity)

/-- The body of the outer `for article_id in article_connections:` loop
(lines 217–263), threading the `(visited, clusters)` state. -/
def clusterStep (g : ConnGraph) (dups : List SimilarityResult)
    (st : List String × List DuplicateCluster) (article_id : String) :
    List String × List DuplicateCluster :=
  if article_id ∈ st.1 then st
  else
    let r := runBFS g article_id st.1
    let cluster_articles := r.1
    if 1 < cluster_articles.length then
      let cluster_scores := clusterScores dups cluster_articles
      let avg_similarity := listMean cluster_scores
      let cluster : DuplicateCluster :=
        { cluster_id := "cluster_" ++ toString (st.2.length + 1)
          primary_article_id := cluster_articles.headD ""
          duplicate_article_ids := cluster_articles.tail
          similarity_scores := cluster_scores
          recommended_action := recommendedActionFor avg_similarity }
      (r.2, st.2 ++ [cluster])
    else (r.2, st.2)

/-- Embedding of `ContentAnalyzer.identify_duplicate_clusters`
(lines 188–266). -/
def identify_duplicate_clusters (similarity_results : List SimilarityResult) :
    List DuplicateCluster :=
  let duplicates := similarity_results.filter (fun r => r.is_duplicate)
  if duplicates.isEmpty then []
  else
    let g := buildConnections duplicates
    ((g.map Prod.fst).foldl (clusterStep g duplicates) ([], [])).2

/-- A cluster's full membership: the primary article followed by the
duplicates. -/
def memberIds (c : DuplicateCluster) : List String :=
  c.primary_article_id :: c.duplicate_article_ids

/-- Two article ids are joined by a duplicate pair of the given list. -/
def dupEdge (dups : List SimilarityResult) (x y : String) : Prop :=
  ∃ d ∈ dups,
    (d.article_id_1 = x ∧ d.article_id_2 = y) ∨
    (d.article_id_1 = y ∧ d.article_id_2 = x)

/-- Connectivity in the duplicate-pair graph. -/
def dupConn (dups : List SimilarityResult) : String → String → Prop :=
  Relation.ReflTransGen (dupEdge dups)

/-- Python's binary `max` on numbers: the second argument only when it is
strictly larger. -/
def pyMax (a b : ℚ) : ℚ := if a < b then b else a

/-- Python's binary `min` on numbers: the second argument only when it is
strictly smaller. -/
def pyMin (a b : ℚ) : ℚ := if b < a then b else a

/-- Python `str.split()` word count: split on whitespace, empty fragments
dropped (line 279). -/
def pyWordCount (s : String) : ℕ :=
  ((splitOnSat Char.isWhitespace s.data).filter (fun w => !w.isEmpty)).length

/-- The sentence list of line 280: `'.'`-separated fragments whose strip
is non-empty. -/
def pySentences (s : String) : List (List Char) :=
  (splitOnSat (fun c => c == '.') s.data).filter
    (fun t => !(stripChars t).isEmpty)

/-- The readability block, lines 278–287.  Returns the score together
with the issues appended by this block. -/
def readabilityOf (clean_text : String) : ℚ × List String :=
  let word_count := pyWordCount clean_text
  let sentence_count := (pySentences clean_text).length
  if 0 < sentence_count then
    let avg_words_per_sentence := (word_count : ℚ) / (sentence_count : ℚ)
    (pyMax 0 (pyMin 1 (1 - (avg_words_per_sentence - 15) / 30)), [])
  else
    (0, ["No readable sentences found"])

/-- The completeness block, lines 289–297. -/
def completenessOf (A : Analyzer) (clean_text : String) : ℚ × List String :=
  if clean_text.length < A.min_content_length then
    (0, ["Content too short"])
  else if clean_text.length < 200 then
    (1/2, ["Content may be too brief"])
  else
    (1, [])

/-- Lower bound of the range `datetime.fromtimestamp` accepts: the epoch
seconds of `datetime.min` (year 1). -/
def datetimeMinTs : ℤ := -62135596800

/-- Upper bound of the range `datetime.fromtimestamp` accepts: the epoch
seconds of `datetime.max` (year 9999). -/
def datetimeMaxTs : ℤ := 253402300799

/-- Model of `datetime.fromtimestamp`, from its documented contract on a
64-bit platform: a non-number raises `TypeError`; an integer outside the
platform `time_t` range raises `OverflowError`; a timestamp whose date
falls outside year 1–9999 raises `ValueError`; otherwise it returns the
corresponding datetime, represented here by its epoch seconds.  (The
exact year-range cutoffs are timezone-dependent; only their existence
matters to the claims.) -/
def fromtimestamp : Timestamp → Except PyError ℤ
  | Timestamp.str _ => Except.error PyError.typeError
  | Timestamp.int n =>
    if n < -(2 ^ 63 : ℤ) ∨ (2 ^ 63 : ℤ) ≤ n then
      Except.error PyError.overflowError
    else if n < datetimeMinTs ∨ datetimeMaxTs < n then
      Except.error PyError.valueError
    else
      Except.ok n

/-- Python truthiness of the `updated_at` value as used by
`if updated_at:` (line 300): `None`, `0` and `""` are falsy. -/
def truthyTimestamp : Option Timestamp → Bool
  | none => false
  | some (Timestamp.int n) => !(n == 0)
  | some (Timestamp.str s) => !(s == "")

/-- The freshness block, lines 299–313.  `except (ValueError, TypeError)`
degrades those two exceptions to the 0.5 default; any other exception
(notably `OverflowError` from `fromtimestamp`) propagates.  `days_old` is
`timedelta.days`, i.e. floor division of the second difference by 86400;
`now` is the current epoch second (`datetime.now()`). -/
def freshnessOf (A : Analyzer) (now : ℤ) (updated_at : Option Timestamp) :
    Except PyError (ℚ × List String) :=
  if truthyTimestamp updated_at then
    match updated_at with
    | some ts =>
      match fromtimestamp ts with
      | Except.ok last_update =>
        let days_old : ℤ := (now - last_update).fdiv 86400
        let freshness :=
          pyMax 0 (1 - (days_old : ℚ) / (A.max_content_age_days : ℚ))
        Except.ok (freshness,
          if (A.max_content_age_days : ℤ) < days_old then
            ["Content may be outdated"]
          else [])
      | Except.error e =>
        if e = PyError.valueError ∨ e = PyError.typeError then
          Except.ok (1/2, ["Invalid update timestamp"])
        else
          Except.error e
    | none => Except.ok (1/2, ["No update timestamp"])
  else
    Except.ok (1/2, ["No update timestamp"])

/-- Checks whether the regex `<[^>]+>` of line 319 matches somewhere:
a `<`, then at least one character that is not `>`, then `>`. -/
def hasHtmlTag : List Char → Bool
  | [] => false
  | c :: rest =>
    (c == '<' &&
      (match rest with
       | [] => false
       | d :: _ => !(d == '>') && rest.contains '>')) ||
    hasHtmlTag rest

/-- Decides whether the first list occurs at the head of the second. -/
def leadsWith : List Char → List Char → Bool
  | [], _ => true
  | _ :: _, [] => false
  | p :: ps, c :: cs => p == c && leadsWith ps cs

/-- Decides whether the first list occurs as a contiguous sublist of the
second (Python's `in` on strings). -/
def containsSub (pat : List Char) : List Char → Bool
  | [] => pat.isEmpty
  | l@(_ :: rest) => leadsWith pat l || containsSub pat rest

/-- The technical-accuracy block, lines 315–331: three independent
deductions applied in order, then the floor at 0. -/
def technicalAccuracyOf (title clean_text : String) : ℚ × List String :=
  let base : ℚ × List String := (1, [])
  let s1 :=
    if hasHtmlTag clean_text.toList then
      (base.1 - 2/10, base.2 ++ ["Contains unprocessed HTML"])
    else base
  let upper := clean_text.data.map Char.toUpper
  let s2 :=
    if containsSub "TODO".data upper || containsSub "FIXME".data upper then
      (s1.1 - 3/10, s1.2 ++ ["Contains TODO/FIXME markers"])
    else s1
  let s3 :=
    if (stripChars title.data).isEmpty then
      (s2.1 - 5/10, s2.2 ++ ["Missing or empty title"])
    else s2
  (pyMax 0 s3.1, s3.2)

/-- Embedding of `ContentAnalyzer.assess_content_quality`
(lines 268–348).  `now` is the epoch second of `datetime.now()`; the
result is `Except` because the freshness block can let an exception
escape. -/
def assess_content_quality (A : Analyzer) (now : ℤ) (article : Article) :
    Except PyError QualityMetrics := do
  let title := article.title
  let clean_text := extract_clean_text A article.body
  let readabilityR := readabilityOf clean_text
  let completenessR := completenessOf A clean_text
  let freshnessR ← freshnessOf A now article.updated_at
  let technicalR := technicalAccuracyOf title clean_text
  let overall := readabilityR.1 * (2/10) + completenessR.1 * (3/10) +
    freshnessR.1 * (2/10) + technicalR.1 * (3/10)
  pure
    { readability_score := readabilityR.1
      completeness_score := completenessR.1
      freshness_score := freshnessR.1
      technical_accuracy_score := technicalR.1
      overall_quality_score := overall
      issues := readabilityR.2 ++ completenessR.2 ++ freshnessR.2 ++
        technicalR.2 }

/-- Models `os.getenv(key, default)`: the process environment is a
partial map from variable names to strings. -/
def getenvOrDefault (env : String → Option String) (key dflt : String) :
    String :=
  (env key).getD dflt

/-- Embedding of line 68,
`float(os.getenv("SIMILARITY_THRESHOLD", str(similarity_threshold)))`.
`pyFloat` models Python's `float()` (with `none` for an unparsable
string, where the constructor would raise) and `pyStr` models `str()` on
a float. -/
def initSimilarityThreshold (pyFloat : String → Option ℚ)
    (pyStr : ℚ → String) (env : String → Option String)
    (similarity_threshold : ℚ) : Option ℚ :=
  pyFloat (getenvOrDefault env "SIMILARITY_THRESHOLD"
    (pyStr similarity_threshold))

/-- Embedding of line 69,
`float(os.getenv("QUALITY_SCORE_THRESHOLD", str(quality_threshold)))`. -/
def initQualityThreshold (pyFloat : String → Option ℚ)
    (pyStr : ℚ → String) (env : String → Option String)
    (quality_threshold : ℚ) : Option ℚ :=
  pyFloat (getenvOrDefault env "QUALITY_SCORE_THRESHOLD"
    (pyStr quality_threshold))

deriving instance DecidableEq for Except

/-- A concrete analyzer used by the concrete evaluations below: default
thresholds, identity normalisation (plain-text bodies), zero similarity
oracles. -/
def idAnalyzer : Analyzer :=
  { similarity_threshold := 85/100
    quality_threshold := 7/10
    min_content_length := 50
    max_content_age_days := 365
    normalizeHtml := id
    titleSim := fun _ _ _ => 0
    contentSim := fun _ _ _ => 0 }

/-- An article with a plain five-word single-sentence body, no
update timestamp. -/
def shortSentenceArticle : Article :=
  { id := "a1", title := "Setup", body := "aa bb cc dd ee." }

/-- The quality metrics `assess_content_quality` produces for
`shortSentenceArticle` under `idAnalyzer`. -/
def shortSentenceMetrics : QualityMetrics :=
  { readability_score := 1
    completeness_score := 0
    freshness_score := 1/2
    technical_accuracy_score := 1
    overall_quality_score := 3/5
    issues := ["Content too short", "No update timestamp"] }

/-- How `assess_content_quality` unfolds when the freshness block does not
raise. -/
theorem assess_eq_ok (A : Analyzer) (now : ℤ) (article : Article)
    (fr : ℚ × List String)
    (hf : freshnessOf A now article.updated_at = Except.ok fr) :
    assess_content_quality A now article = Except.ok
      { readability_score := (readabilityOf (extract_clean_text A article.body)).1
        completeness_score := (completenessOf A (extract_clean_text A article.body)).1
        freshness_score := fr.1
        technical_accuracy_score :=
          (technicalAccuracyOf article.title (extract_clean_text A article.body)).1
        overall_quality_score :=
          (readabilityOf (extract_clean_text A article.body)).1 * (2/10) +
          (completenessOf A (extract_clean_text A article.body)).1 * (3/10) +
          fr.1 * (2/10) +
          (technicalAccuracyOf article.title (extract_clean_text A article.body)).1 * (3/10)
        issues := (readabilityOf (extract_clean_text A article.body)).2 ++
          (completenessOf A (extract_clean_text A article.body)).2 ++ fr.2 ++
          (technicalAccuracyOf article.title (extract_clean_text A article.body)).2 } := by
  simp [assess_content_quality, hf]

/-- How `assess_content_quality` unfolds when the freshness block raises. -/
theorem assess_eq_error (A : Analyzer) (now : ℤ) (article : Article)
    (e : PyError)
    (hf : freshnessOf A now article.updated_at = Except.error e) :
    assess_content_quality A now article = Except.error e := by
  simp [assess_content_quality, hf]

/-- Readability evaluation at the five-word one-sentence body. -/
theorem readabilityOf_shortSentence :
    readabilityOf "aa bb cc dd ee." = (1, []) := by
  have hw : pyWordCount "aa bb cc dd ee." = 5 := by decide
  have hs : (pySentences "aa bb cc dd ee.").length = 1 := by decide
  simp only [readabilityOf, hw, hs]
  norm_num [pyMax, pyMin]

/-- Concrete evaluation shared by several witnesses below. -/
theorem assess_shortSentence_eval :
    assess_content_quality idAnalyzer 0 shortSentenceArticle =
      Except.ok shortSentenceMetrics := by
  have hct : extract_clean_text idAnalyzer "aa bb cc dd ee." =
      "aa bb cc dd ee." := by
    simp [extract_clean_text, idAnalyzer]
  have hf : freshnessOf idAnalyzer 0 (none : Option Timestamp) =
      Except.ok ((1:ℚ)/2, ["No update timestamp"]) := by
    simp [freshnessOf, truthyTimestamp]
  have hco : completenessOf idAnalyzer "aa bb cc dd ee." =
      (0, ["Content too short"]) := by decide
  have hta : technicalAccuracyOf "Setup" "aa bb cc dd ee." = (1, []) := by
    decide
  have := assess_eq_ok idAnalyzer 0 shortSentenceArticle
    ((1:ℚ)/2, ["No update timestamp"]) hf
  rw [shortSentenceArticle] at this ⊢
  rw [this]
  simp only [hct, readabilityOf_shortSentence, hco, hta]
  rw [shortSentenceMetrics]
  norm_num

/-- C7: `assess_content_quality` is *not* exception-free for every malformed
timestamp: an integer `updated_at` of `10^19` (beyond the 64-bit `time_t`
range) makes `datetime.fromtimestamp` raise `OverflowError`, which the
`except (ValueError, TypeError)` clause does not catch, so the assessment
raises; a missing timestamp does degrade to freshness `1/2` with the issue
`"No update timestamp"` as claimed. -/
theorem assess_overflow_timestamp_raises :
    assess_content_quality idAnalyzer 0
      { id := "a1", title := "Setup", body := "",
        updated_at := some (Timestamp.int (10 ^ 19)) } =
      Except.error PyError.overflowError ∧
    assess_content_quality idAnalyzer 0 { id := "a2", title := "Setup", body := "" } =
      Except.ok
        { readability_score := 0, completeness_score := 0, freshness_score := 1/2,
          technical_accuracy_score := 1, overall_quality_score := 2/5,
          issues := ["No readable sentences found", "Content too short",
            "No update timestamp"] } := by
  constructor
  · refine assess_eq_error idAnalyzer 0 _ PyError.overflowError ?_
    have hb : ((2:ℤ) ^ 63 ≤ 10 ^ 19) := by norm_num
    norm_num [freshnessOf, truthyTimestamp, fromtimestamp, hb]
    rintro (h | h) <;> exact absurd h (by decide)
  · have hf : freshnessOf idAnalyzer 0 (none : Option Timestamp) =
        Except.ok ((1:ℚ)/2, ["No update timestamp"]) := by
      simp [freshnessOf, truthyTimestamp]
    rw [assess_eq_ok idAnalyzer 0 _ ((1:ℚ)/2, ["No update timestamp"]) hf]
    have h1 : readabilityOf "" = (0, ["No readable sentences found"]) := by decide
    have h2 : completenessOf idAnalyzer "" = (0, ["Content too short"]) := by decide
    have h3 : technicalAccuracyOf "Setup" "" = (1, []) := by decide
    simp [extract_clean_text, h1, h2, h3]
    norm_num

/-- C8 counterexample: a body averaging five words per sentence — strictly
shorter than the 15-word optimum — still scores readability `1`, not a
reduced score: the clamp keeps every shorter-than-15 average at `1.0`. -/
theorem readability_short_average_not_reduced :
    pyWordCount "aa bb cc dd ee." = 5 ∧
    (pySentences "aa bb cc dd ee.").length = 1 ∧
    (pyWordCount "aa bb cc dd ee." : ℚ) /
      ((pySentences "aa bb cc dd ee.").length : ℚ) < 15 ∧
    readabilityOf "aa bb cc dd ee." = (1, []) := by
  refine ⟨by decide, by decide, ?_, readabilityOf_shortSentence⟩
  have h5 : pyWordCount "aa bb cc dd ee." = 5 := by decide
  have h1 : (pySentences "aa bb cc dd ee.").length = 1 := by decide
  rw [h5, h1]
  norm_num

/-- C8 (amended): with at least one sentence the readability score is
exactly `clamp(1 − (avg − 15)/30, 0, 1)`; an average of at most 15 words
per sentence (shorter sentences included) scores exactly `1.0` — it is
*not* reduced; zero sentences score `0` with the issue
`"No readable sentences found"`. -/
theorem readability_formula (A : Analyzer) (now : ℤ) (article : Article)
    (qm : QualityMetrics)
    (h : assess_content_quality A now article = Except.ok qm) :
    (0 < (pySentences (extract_clean_text A article.body)).length →
      qm.readability_score = pyMax 0 (pyMin 1 (1 -
        ((pyWordCount (extract_clean_text A article.body) : ℚ) /
          ((pySentences (extract_clean_text A article.body)).length : ℚ) - 15) / 30)) ∧
      ((pyWordCount (extract_clean_text A article.body) : ℚ) /
          ((pySentences (extract_clean_text A article.body)).length : ℚ) ≤ 15 →
        qm.readability_score = 1)) ∧
    ((pySentences (extract_clean_text A article.body)).length = 0 →
      qm.readability_score = 0 ∧ "No readable sentences found" ∈ qm.issues) := by
  cases hf : freshnessOf A now article.updated_at with
  | error e =>
    rw [assess_eq_error A now article e hf] at h
    exact absurd h (by simp)
  | ok fr =>
    rw [assess_eq_ok A now article fr hf] at h
    injection h with h
    subst h
    constructor
    · intro hpos
      constructor
      · simp only [readabilityOf, if_pos hpos]
      · intro havg
        have hx : (1:ℚ) ≤ 1 -
            ((pyWordCount (extract_clean_text A article.body) : ℚ) /
              ((pySentences (extract_clean_text A article.body)).length : ℚ) - 15) / 30 := by
          have hnum : ((pyWordCount (extract_clean_text A article.body) : ℚ) /
              ((pySentences (extract_clean_text A article.body)).length : ℚ) - 15) ≤ 0 :=
            sub_nonpos.mpr havg
          have : ((pyWordCount (extract_clean_text A article.body) : ℚ) /
              ((pySentences (extract_clean_text A article.body)).length : ℚ) - 15) / 30 ≤ 0 :=
            div_nonpos_iff.mpr (Or.inr ⟨hnum, by norm_num⟩)
          linarith
        simp only [readabilityOf, if_pos hpos]
        rw [pyMin, if_neg (not_lt.mpr hx), pyMax, if_pos one_pos]
    · intro h0
      constructor
      · simp [readabilityOf, h0]
      · simp [readabilityOf, h0]

/-- Witness for the amended C8 at a concrete five-word one-sentence
article: hypotheses hold and the readability score is exactly 1. -/
theorem readability_formula_witness :
    shortSentenceMetrics.readability_score = 1 ∧ (5:ℚ)/1 ≤ 15 := by
  have H := readability_formula idAnalyzer 0 shortSentenceArticle
    shortSentenceMetrics assess_shortSentence_eval
  refine ⟨?_, by norm_num⟩
  have hpos : 0 < (pySentences
      (extract_clean_text idAnalyzer shortSentenceArticle.body)).length := by decide
  have h5 : pyWordCount (extract_clean_text idAnalyzer shortSentenceArticle.body) = 5 := by
    decide
  have h1 : (pySentences (extract_clean_text idAnalyzer shortSentenceArticle.body)).length
      = 1 := by decide
  have havg : (pyWordCount (extract_clean_text idAnalyzer shortSentenceArticle.body) : ℚ) /
      ((pySentences (extract_clean_text idAnalyzer shortSentenceArticle.body)).length : ℚ)
      ≤ 15 := by
    rw [h5, h1]; norm_num
  exact (H.1 hpos).2 havg

/-- C9: the assessment is a pure function of the analyzer configuration,
the clock value and the article: two runs on equal inputs yield the same
four component scores, the same overall score and the same issue list. -/
theorem assess_idempotent (A : Analyzer) (now : ℤ) (article : Article)
    (q1 q2 : QualityMetrics)
    (h1 : assess_content_quality A now article = Except.ok q1)
    (h2 : assess_content_quality A now article = Except.ok q2) :
    q1.readability_score = q2.readability_score ∧
    q1.completeness_score = q2.completeness_score ∧
    q1.freshness_score = q2.freshness_score ∧
    q1.technical_accuracy_score = q2.technical_accuracy_score ∧
    q1.overall_quality_score = q2.overall_quality_score ∧
    q1.issues = q2.issues := by
  rw [h1] at h2
  injection h2 with h
  subst h
  exact ⟨rfl, rfl, rfl, rfl, rfl, rfl⟩

/-- Witness for C9 at a concrete article. -/
theorem assess_idempotent_witness :
    shortSentenceMetrics.readability_score = shortSentenceMetrics.readability_score ∧
    shortSentenceMetrics.completeness_score = shortSentenceMetrics.completeness_score ∧
    shortSentenceMetrics.freshness_score = shortSentenceMetrics.freshness_score ∧
    shortSentenceMetrics.technical_accuracy_score =
      shortSentenceMetrics.technical_accuracy_score ∧
    shortSentenceMetrics.overall_quality_score =
      shortSentenceMetrics.overall_quality_score ∧
    shortSentenceMetrics.issues = shortSentenceMetrics.issues :=
  assess_idempotent idAnalyzer 0 shortSentenceArticle
    shortSentenceMetrics shortSentenceMetrics
    assess_shortSentence_eval assess_shortSentence_eval

/-- C10: with the environment variable set, the threshold used is the
parsed environment value whatever the constructor argument (so the
matching CLI flag, which only feeds that argument, is ignored); with it
unset, the constructor argument round-trips through `str`/`float` and is
used. -/
theorem env_overrides_constructor (pyFloat : String → Option ℚ)
    (pyStr : ℚ → String) (envSet envUnset : String → Option String)
    (a b : ℚ) (s t : String)
    (hs : envSet "SIMILARITY_THRESHOLD" = some s)
    (ht : envSet "QUALITY_SCORE_THRESHOLD" = some t)
    (hn1 : envUnset "SIMILARITY_THRESHOLD" = none)
    (hn2 : envUnset "QUALITY_SCORE_THRESHOLD" = none)
    (hra : pyFloat (pyStr a) = some a) :
    (initSimilarityThreshold pyFloat pyStr envSet a = pyFloat s ∧
     initSimilarityThreshold pyFloat pyStr envSet b = pyFloat s) ∧
    (initQualityThreshold pyFloat pyStr envSet a = pyFloat t ∧
     initQualityThreshold pyFloat pyStr envSet b = pyFloat t) ∧
    initSimilarityThreshold pyFloat pyStr envUnset a = some a ∧
    initQualityThreshold pyFloat pyStr envUnset a = some a := by
  simp [initSimilarityThreshold, initQualityThreshold, getenvOrDefault,
    hs, ht, hn1, hn2, hra]

/-- A toy `float()` for the C10 witness. -/
def pyFloatW : String → Option ℚ :=
  fun s => if s = "0.9" then some (9/10) else
    if s = "0.7" then some (7/10) else none

/-- A toy `str()` for the C10 witness, inverse of `pyFloatW` at `7/10`. -/
def pyStrW : ℚ → String := fun q => if q = 7/10 then "0.7" else "?"

/-- An environment with both threshold variables set to `"0.9"`. -/
def envSetW : String → Option String :=
  fun k => if k = "SIMILARITY_THRESHOLD" then some "0.9" else
    if k = "QUALITY_SCORE_THRESHOLD" then some "0.9" else none

/-- An environment with neither threshold variable set. -/
def envUnsetW : String → Option String := fun _ => none

/-- Witness for C10: both environment variables set to `"0.9"` override the
constructor arguments `7/10` and `1/3`; with the environment unset the
argument `7/10` survives. -/
theorem env_overrides_constructor_witness :
    (initSimilarityThreshold pyFloatW pyStrW envSetW (7/10) = pyFloatW "0.9" ∧
     initSimilarityThreshold pyFloatW pyStrW envSetW (1/3) = pyFloatW "0.9") ∧
    (initQualityThreshold pyFloatW pyStrW envSetW (7/10) = pyFloatW "0.9" ∧
     initQualityThreshold pyFloatW pyStrW envSetW (1/3) = pyFloatW "0.9") ∧
    initSimilarityThreshold pyFloatW pyStrW envUnsetW (7/10) = some (7/10) ∧
    initQualityThreshold pyFloatW pyStrW envUnsetW (7/10) = some (7/10) := by
  refine env_overrides_constructor pyFloatW pyStrW envSetW envUnsetW
    (7/10) (1/3) "0.9" "0.9" ?_ ?_ ?_ ?_ ?_
  · simp [envSetW]
  · simp [envSetW]
  · simp [envUnsetW]
  · simp [envUnsetW]
  · simp [pyFloatW, pyStrW]

/-- C1: the code does *not* treat the all-empty-titles batch gracefully:
with two articles whose titles are both `""` (bodies non-empty), the
TF-IDF vectorizer is still invoked — the guard only checks that the title
*list* is non-empty — and raises `ValueError` (empty vocabulary).  The
all-empty-bodies half of the claim does hold: with non-empty titles and
both bodies `""`, the engine returns the single pair with content
similarity `0` and no error. -/
theorem empty_titles_raise_empty_vocabulary :
    calculate_content_similarity idAnalyzer
      [{ id := "a1", title := "", body := "north body" },
       { id := "a2", title := "", body := "south body" }] =
      Except.error PyError.valueError ∧
    calculate_content_similarity idAnalyzer
      [{ id := "b1", title := "alpha beta", body := "" },
       { id := "b2", title := "gamma delta", body := "" }] =
      Except.ok [{ article_id_1 := "b1"
                   article_id_2 := "b2"
                   title_similarity := 0
                   content_similarity := 0
                   overall_similarity := 0 * (3/10) + 0 * (7/10)
                   is_duplicate := false }] := by
  constructor
  · have hv : tfidfVocab ["", ""] = [] := by decide
    have h1 : titleSimilarityMatrix idAnalyzer ["", ""] =
        Except.error PyError.valueError := by
      simp [titleSimilarityMatrix, hv]
    simp [calculate_content_similarity, h1]
  · have hv : (tfidfVocab ["alpha beta", "gamma delta"]).isEmpty = false := by decide
    have h1 : titleSimilarityMatrix idAnalyzer ["alpha beta", "gamma delta"] =
        Except.ok (idAnalyzer.titleSim ["alpha beta", "gamma delta"]) := by
      simp [titleSimilarityMatrix, hv]
    have h2 : contentSimilarityMatrix idAnalyzer ["", ""] = fun _ _ => 0 := by
      simp [contentSimilarityMatrix, stripChars]
    have hpb : pairsBelow 2 = [(0, 1)] := by decide
    simp only [calculate_content_similarity, List.map_cons, List.map_nil,
      extract_clean_text, if_pos, String.reduceEq, ite_true]
    rw [h1]
    simp only [Except.map, generateSimilarityResults, List.length_cons,
      List.length_nil, hpb, h2, List.map_cons, List.map_nil, mkSimilarityResult]
    simp only [idAnalyzer]
    norm_num

/-- Lexicographic order on position pairs. -/
def pairLexLt (p q : ℕ × ℕ) : Prop :=
  p.1 < q.1 ∨ (p.1 = q.1 ∧ p.2 < q.2)

/-- Membership in the pair loop's index list. -/
theorem mem_pairsBelow {n : ℕ} {p : ℕ × ℕ} :
    p ∈ pairsBelow n ↔ p.1 < p.2 ∧ p.2 < n := by
  obtain ⟨i, j⟩ := p
  simp only [pairsBelow, List.mem_flatMap, List.mem_map, List.mem_filter,
    List.mem_range, decide_eq_true_eq]
  constructor
  · rintro ⟨a, _, b, ⟨hb, hab⟩, e⟩
    obtain ⟨rfl, rfl⟩ := Prod.mk.injEq .. ▸ e
    exact ⟨hab, hb⟩
  · rintro ⟨hij, hj⟩
    exact ⟨i, lt_trans hij hj, j, ⟨hj, hij⟩, rfl⟩

/-- The pair loop emits index pairs in strictly increasing lexicographic
order. -/
theorem pairsBelow_sorted (n : ℕ) : (pairsBelow n).Pairwise pairLexLt := by
  rw [pairsBelow, List.pairwise_flatMap]
  constructor
  · intro i _
    refine List.Pairwise.map _ (fun a b hab => Or.inr ⟨rfl, hab⟩) ?_
    exact (List.pairwise_lt_range n).filter _
  · refine (List.pairwise_lt_range n).imp ?_
    intro a b hab x hx y hy
    simp only [List.mem_map, List.mem_filter] at hx hy
    obtain ⟨j, _, rfl⟩ := hx
    obtain ⟨k, _, rfl⟩ := hy
    exact Or.inl hab

/-- Each index pair occurs at most once in the pair loop. -/
theorem pairsBelow_nodup (n : ℕ) : (pairsBelow n).Nodup := by
  refine (pairsBelow_sorted n).imp ?_
  intro a b hab e
  subst e
  rcases hab with h | ⟨-, h⟩ <;> exact lt_irrefl _ h

/-- Count of inner-loop iterations for a fixed `i`. -/
theorem length_filter_range_lt (n i : ℕ) :
    ((List.range n).filter (fun j => decide (i < j))).length = n - (i + 1) := by
  induction n with
  | zero => simp
  | succ n ih =>
    rw [List.range_succ, List.filter_append, List.length_append, ih]
    by_cases h : i < n
    · rw [List.filter_cons_of_pos (by simpa using h)]
      simp only [List.filter_nil, List.length_cons, List.length_nil]
      omega
    · rw [List.filter_cons_of_neg (by simpa using h)]
      simp only [List.filter_nil, List.length_nil]
      omega

/-- The pair loop runs exactly `n·(n−1)/2` times. -/
theorem length_pairsBelow (n : ℕ) : (pairsBelow n).length = n * (n - 1) / 2 := by
  rw [pairsBelow, List.length_flatMap]
  have h1 : List.map (List.length ∘ fun i =>
      ((List.range n).filter (fun j => decide (i < j))).map (fun j => (i, j)))
      (List.range n) = List.map (fun i => n - 1 - i) (List.range n) := by
    refine List.map_congr_left ?_
    intro i _
    simp only [Function.comp, List.length_map, length_filter_range_lt]
    omega
  rw [h1]
  have h2 : (List.map (fun i => n - 1 - i) (List.range n)).sum =
      ∑ i ∈ Finset.range n, (n - 1 - i) := rfl
  rw [h2, Finset.sum_range_reflect (fun i => i) n, Finset.sum_range_id]

/-- Inversion of a successful similarity run: the title matrix vectorized
without error and the results are exactly the pair loop's output. -/
theorem calc_ok_inv (A : Analyzer) (articles : List Article)
    (rs : List SimilarityResult)
    (h : calculate_content_similarity A articles = Except.ok rs) :
    ∃ tS, titleSimilarityMatrix A (articles.map (fun a => a.title)) =
        Except.ok tS ∧
      rs = generateSimilarityResults (articles.map (fun a => a.id)) tS
        (contentSimilarityMatrix A
          (articles.map (fun a => extract_clean_text A a.body)))
        A.similarity_threshold := by
  cases htm : titleSimilarityMatrix A (articles.map fun a => a.title) with
  | error e => simp [calculate_content_similarity, htm] at h
  | ok tS =>
    simp only [calculate_content_similarity, htm, Except.bind, bind,
      pure] at h
    exact ⟨tS, rfl, by injection h with h; exact h.symm⟩

/-- C2: a successful similarity run over `N` articles returns exactly
`N·(N−1)/2` results — one per unordered pair of input positions, in loop
order, each pair occurring exactly once, with `article_id_1` the id of the
earlier article and `article_id_2` the id of the later one. -/
theorem similarity_pairs_complete (A : Analyzer) (articles : List Article)
    (rs : List SimilarityResult)
    (h : calculate_content_similarity A articles = Except.ok rs) :
    rs.length = articles.length * (articles.length - 1) / 2 ∧
    rs.map (fun r => (r.article_id_1, r.article_id_2)) =
      (pairsBelow articles.length).map (fun p =>
        ((articles.map (fun a => a.id)).getD p.1 "",
         (articles.map (fun a => a.id)).getD p.2 "")) ∧
    (pairsBelow articles.length).Nodup ∧
    ∀ p : ℕ × ℕ, p ∈ pairsBelow articles.length ↔
      p.1 < p.2 ∧ p.2 < articles.length := by
  obtain ⟨tS, -, hrs⟩ := calc_ok_inv A articles rs h
  subst hrs
  refine ⟨?_, ?_, pairsBelow_nodup _, fun _ => mem_pairsBelow⟩
  · simp [generateSimilarityResults, length_pairsBelow]
  · rw [generateSimilarityResults, List.map_map, List.length_map]
    exact List.map_congr_left (fun p _ => rfl)

/-- The all-empty-bodies pair of articles used by several witnesses. -/
def emptyBodyA : Article := { id := "b1", title := "alpha beta", body := "" }

/-- Second all-empty-bodies article. -/
def emptyBodyB : Article := { id := "b2", title := "gamma delta", body := "" }

/-- The single similarity result for the batch `[emptyBodyA, emptyBodyB]`
under `idAnalyzer`. -/
def emptyBodyResult : SimilarityResult :=
  { article_id_1 := "b1"
    article_id_2 := "b2"
    title_similarity := 0
    content_similarity := 0
    overall_similarity := 0 * (3/10) + 0 * (7/10)
    is_duplicate := false }

/-- Concrete run of the similarity engine on `[emptyBodyA, emptyBodyB]`. -/
theorem calc_emptyBody_eval :
    calculate_content_similarity idAnalyzer [emptyBodyA, emptyBodyB] =
      Except.ok [emptyBodyResult] := by
  have hv : (tfidfVocab ["alpha beta", "gamma delta"]).isEmpty = false := by decide
  have h1 : titleSimilarityMatrix idAnalyzer ["alpha beta", "gamma delta"] =
      Except.ok (idAnalyzer.titleSim ["alpha beta", "gamma delta"]) := by
    simp [titleSimilarityMatrix, hv]
  have h2 : contentSimilarityMatrix idAnalyzer ["", ""] = fun _ _ => 0 := by
    simp [contentSimilarityMatrix, stripChars]
  have hpb : pairsBelow 2 = [(0, 1)] := by decide
  simp only [emptyBodyA, emptyBodyB, emptyBodyResult,
    calculate_content_similarity, List.map_cons, List.map_nil,
    extract_clean_text, if_pos, String.reduceEq, ite_true]
  rw [h1]
  simp only [Except.map, generateSimilarityResults, List.length_cons,
    List.length_nil, hpb, h2, List.map_cons, List.map_nil, mkSimilarityResult]
  simp only [idAnalyzer]
  norm_num

/-- Witness for C2 on the concrete two-article batch: one pair. -/
theorem similarity_pairs_complete_witness :
    ([emptyBodyResult] : List SimilarityResult).length =
      ([emptyBodyA, emptyBodyB] : List Article).length *
        (([emptyBodyA, emptyBodyB] : List Article).length - 1) / 2 :=
  (similarity_pairs_complete idAnalyzer [emptyBodyA, emptyBodyB]
    [emptyBodyResult] calc_emptyBody_eval).1

/-- Dot product of two rational vectors: the cosine similarity of two
unit-norm embedding vectors. -/
def dotQ (u v : List ℚ) : ℚ :=
  (List.zipWith (fun a b => a * b) u v).sum

/-- C3 (amended): every emitted pair has
`overall = title·0.3 + content·0.7`; `is_duplicate` holds exactly when the
threshold is met (boundary inclusive); and the overall score lies in
`[0, 1]` *provided* both component similarities lie in `[0, 1]` — the code
performs no clamping of its own. -/
theorem overall_weighted_thresholded (A : Analyzer) (articles : List Article)
    (rs : List SimilarityResult) (r : SimilarityResult)
    (h : calculate_content_similarity A articles = Except.ok rs)
    (hr : r ∈ rs) :
    r.overall_similarity =
      r.title_similarity * (3/10) + r.content_similarity * (7/10) ∧
    (r.is_duplicate = true ↔ A.similarity_threshold ≤ r.overall_similarity) ∧
    (0 ≤ r.title_similarity → r.title_similarity ≤ 1 →
     0 ≤ r.content_similarity → r.content_similarity ≤ 1 →
     0 ≤ r.overall_similarity ∧ r.overall_similarity ≤ 1) := by
  obtain ⟨tS, -, hrs⟩ := calc_ok_inv A articles rs h
  subst hrs
  rw [generateSimilarityResults] at hr
  obtain ⟨p, -, rfl⟩ := List.mem_map.mp hr
  refine ⟨rfl, by simp [mkSimilarityResult], ?_⟩
  intro h1 h2 h3 h4
  simp only [mkSimilarityResult] at h1 h2 h3 h4 ⊢
  constructor
  · have a1 := mul_nonneg h1 (by norm_num : (0:ℚ) ≤ 3/10)
    have a2 := mul_nonneg h3 (by norm_num : (0:ℚ) ≤ 7/10)
    linarith
  · have a1 := mul_le_mul_of_nonneg_right h2 (by norm_num : (0:ℚ) ≤ 3/10)
    have a2 := mul_le_mul_of_nonneg_right h4 (by norm_num : (0:ℚ) ≤ 7/10)
    linarith

/-- Witness for the amended C3 at the concrete two-article batch. -/
theorem overall_weighted_thresholded_witness :
    emptyBodyResult.overall_similarity =
      emptyBodyResult.title_similarity * (3/10) +
        emptyBodyResult.content_similarity * (7/10) ∧
    (emptyBodyResult.is_duplicate = true ↔
      idAnalyzer.similarity_threshold ≤ emptyBodyResult.overall_similarity) ∧
    (0 ≤ emptyBodyResult.title_similarity → emptyBodyResult.title_similarity ≤ 1 →
     0 ≤ emptyBodyResult.content_similarity → emptyBodyResult.content_similarity ≤ 1 →
     0 ≤ emptyBodyResult.overall_similarity ∧
       emptyBodyResult.overall_similarity ≤ 1) :=
  overall_weighted_thresholded idAnalyzer [emptyBodyA, emptyBodyB]
    [emptyBodyResult] emptyBodyResult calc_emptyBody_eval
    (List.mem_singleton.mpr rfl)

/-- An analyzer whose content oracle is the cosine similarity of the
unit-norm embedding vectors `(1, 0)` (both articles map to it on the
diagonal) and `(1, 0)` vs `(−1, 0)` off the diagonal — values
`cosine_similarity` can return, since dense sentence embeddings are not
sign-constrained; the title oracle is `0`, the exact TF-IDF cosine of two
titles sharing no term. -/
def negCosAnalyzer : Analyzer :=
  { similarity_threshold := 85/100
    quality_threshold := 7/10
    min_content_length := 50
    max_content_age_days := 365
    normalizeHtml := id
    titleSim := fun _ _ _ => 0
    contentSim := fun _ i j => if i = j then dotQ [1, 0] [1, 0] else dotQ [1, 0] [-1, 0] }

/-- C3 counterexample: with a negative content cosine the emitted overall
similarity is negative — outside `[0, 1]` — because the pair loop applies
no clamping. -/
theorem overall_similarity_below_zero :
    calculate_content_similarity negCosAnalyzer
      [{ id := "c1", title := "alpha beta", body := "north text" },
       { id := "c2", title := "gamma delta", body := "south text" }] =
      Except.ok [{ article_id_1 := "c1"
                   article_id_2 := "c2"
                   title_similarity := 0
                   content_similarity := dotQ [1, 0] [-1, 0]
                   overall_similarity := 0 * (3/10) + dotQ [1, 0] [-1, 0] * (7/10)
                   is_duplicate := false }] ∧
    0 * (3/10) + dotQ [1, 0] [-1, 0] * (7/10) < 0 := by
  constructor
  · have hv : (tfidfVocab ["alpha beta", "gamma delta"]).isEmpty = false := by
      decide
    have h1 : titleSimilarityMatrix negCosAnalyzer ["alpha beta", "gamma delta"] =
        Except.ok (negCosAnalyzer.titleSim ["alpha beta", "gamma delta"]) := by
      simp [titleSimilarityMatrix, hv]
    have hne : (["north text", "south text"] : List String).any
        (fun t => !(stripChars t.data).isEmpty) = true := by decide
    have h2 : contentSimilarityMatrix negCosAnalyzer ["north text", "south text"] =
        negCosAnalyzer.contentSim ["north text", "south text"] := by
      simp [contentSimilarityMatrix, hne]
    have hpb : pairsBelow 2 = [(0, 1)] := by decide
    have he1 : extract_clean_text negCosAnalyzer "north text" = "north text" := by
      simp [extract_clean_text, negCosAnalyzer]
    have he2 : extract_clean_text negCosAnalyzer "south text" = "south text" := by
      simp [extract_clean_text, negCosAnalyzer]
    simp only [calculate_content_similarity, List.map_cons, List.map_nil, he1, he2]
    rw [h1]
    simp only [Except.map, generateSimilarityResults, List.length_cons,
      List.length_nil, hpb, h2, List.map_cons, List.map_nil, mkSimilarityResult]
    simp only [negCosAnalyzer]
    norm_num [dotQ]
  · norm_num [dotQ]

/-- One step in the adjacency structure: `b` occurs in `a`'s list. -/
def graphEdge (g : ConnGraph) (a b : String) : Prop :=
  ∃ p ∈ adjList g a, p.1 = b

/-- Reachability along the adjacency structure. -/
def graphReach (g : ConnGraph) : String → String → Prop :=
  Relation.ReflTransGen (graphEdge g)

/-- An id that occurs as an endpoint of some listed pair. -/
def dupEndpoint (dups : List SimilarityResult) (x : String) : Prop :=
  ∃ d ∈ dups, d.article_id_1 = x ∨ d.article_id_2 = x

/-- Creating a missing key does not change any adjacency list. -/
theorem adjList_ensureKey (g : ConnGraph) (k x : String) :
    adjList (ensureKey g k) x = adjList g x := by
  unfold ensureKey
  split
  · rfl
  · unfold adjList
    rw [List.find?_append]
    cases h : List.find? (fun kv => kv.1 == x) g with
    | some kv => simp [h]
    | none =>
      simp only [h, Option.none_or]
      cases hxk : (k == x) with
      | true => simp [List.find?, hxk]
      | false => simp [List.find?, hxk]

/-- `ensureKey` leaves every present key present. -/
theorem any_ensureKey_mono (g : ConnGraph) (k k' : String)
    (h : g.any (fun kv => kv.1 == k') = true) :
    (ensureKey g k).any (fun kv => kv.1 == k') = true := by
  unfold ensureKey
  split
  · exact h
  · rw [List.any_append, h, Bool.true_or]

/-- After `ensureKey g k`, the key `k` is present. -/
theorem any_ensureKey_self (g : ConnGraph) (k : String) :
    (ensureKey g k).any (fun kv => kv.1 == k) = true := by
  unfold ensureKey
  split
  · assumption
  · rw [List.any_append]
    simp

/-- `appendVal` never changes which keys are present. -/
theorem any_appendVal (g : ConnGraph) (k : String) (v : String × ℚ)
    (k' : String) :
    (appendVal g k v).any (fun kv => kv.1 == k') = g.any (fun kv => kv.1 == k') := by
  induction g with
  | nil => rfl
  | cons kv rest ih =>
    unfold appendVal at ih ⊢
    simp only [List.map_cons, List.any_cons, ih]
    by_cases h : kv.1 = k <;> simp [h]

/-- Unfolding of `adjList` on a cons cell. -/
theorem adjList_cons (kv : String × List (String × ℚ)) (g : ConnGraph)
    (x : String) :
    adjList (kv :: g) x = if kv.1 = x then kv.2 else adjList g x := by
  unfold adjList
  by_cases h : kv.1 = x
  · simp [List.find?, h]
  · simp only [List.find?, beq_eq_false_iff_ne, ne_eq]
    rw [if_neg h]
    have : (kv.1 == x) = false := by simp [h]
    rw [this]

/-- How `appendVal` changes an adjacency list: the value is appended to
the first entry of the key, when the key is present at all. -/
theorem adjList_appendVal (g : ConnGraph) (k : String) (v : String × ℚ)
    (x : String) :
    adjList (appendVal g k v) x =
      if x = k ∧ g.any (fun kv => kv.1 == k) = true then adjList g x ++ [v]
      else adjList g x := by
  induction g with
  | nil => simp [appendVal, adjList]
  | cons kv rest ih =>
    show adjList ((if kv.1 = k then (kv.1, kv.2 ++ [v]) else kv) :: appendVal rest k v) x = _
    by_cases hkk : kv.1 = k
    · rw [if_pos hkk]
      by_cases hxv : kv.1 = x
      · have hR : adjList (kv :: rest) x = kv.2 := by rw [adjList_cons, if_pos hxv]
        rw [adjList_cons]
        rw [if_pos hxv]
        have hcond : x = k ∧ ((kv :: rest).any fun kv => kv.1 == k) = true :=
          ⟨by rw [← hxv, hkk], by simp [List.any_cons, hkk]⟩
        rw [if_pos hcond, hR]
      · have hR : adjList (kv :: rest) x = adjList rest x := by
          rw [adjList_cons, if_neg hxv]
        rw [adjList_cons, if_neg hxv, ih, hR]
        have hxk : ¬ x = k := fun e => hxv (by rw [hkk, e])
        rw [if_neg (by tauto), if_neg (by tauto)]
    · rw [if_neg hkk]
      by_cases hxv : kv.1 = x
      · have hR : adjList (kv :: rest) x = kv.2 := by rw [adjList_cons, if_pos hxv]
        rw [adjList_cons, if_pos hxv]
        have hxk : ¬ x = k := fun e => hkk (by rw [hxv, e])
        rw [if_neg (by tauto), hR]
      · have hR : adjList (kv :: rest) x = adjList rest x := by
          rw [adjList_cons, if_neg hxv]
        rw [adjList_cons, if_neg hxv, ih, hR]
        have hany : ((kv :: rest).any fun kv => kv.1 == k) =
            rest.any (fun kv => kv.1 == k) := by
          simp [List.any_cons, hkk]
        rw [hany]

/-- Membership change effected by one `addDuplicate` step: the two
directed entries of the pair are added, everything else is untouched. -/
theorem mem_adjList_addDuplicate (g : ConnGraph) (d : SimilarityResult)
    (x : String) (p : String × ℚ) :
    p ∈ adjList (addDuplicate g d) x ↔ p ∈ adjList g x
      ∨ (x = d.article_id_1 ∧ p = (d.article_id_2, d.overall_similarity))
      ∨ (x = d.article_id_2 ∧ p = (d.article_id_1, d.overall_similarity)) := by
  unfold addDuplicate
  have e2 : ∀ y, adjList (ensureKey (ensureKey g d.article_id_1) d.article_id_2) y =
      adjList g y := by
    intro y; rw [adjList_ensureKey, adjList_ensureKey]
  have hk1 : ((ensureKey (ensureKey g d.article_id_1) d.article_id_2).any
      (fun kv => kv.1 == d.article_id_1)) = true :=
    any_ensureKey_mono _ _ _ (any_ensureKey_self _ _)
  have hk2 : ((appendVal (ensureKey (ensureKey g d.article_id_1) d.article_id_2)
      d.article_id_1 (d.article_id_2, d.overall_similarity)).any
      (fun kv => kv.1 == d.article_id_2)) = true := by
    rw [any_appendVal]
    exact any_ensureKey_self _ _
  rw [adjList_appendVal, hk2]
  rw [adjList_appendVal, hk1]
  rw [e2]
  by_cases h2 : x = d.article_id_2 <;> by_cases h1 : x = d.article_id_1
  · have hdd : d.article_id_1 = d.article_id_2 := by rw [← h1, ← h2]
    simp only [h1, h2, and_true, if_pos rfl, hdd, List.mem_append, List.mem_cons,
      List.mem_singleton, if_true, and_self, ite_true, List.not_mem_nil, or_false]
    tauto
  · have hne : ¬ d.article_id_2 = d.article_id_1 := fun e => h1 (h2.trans e)
    simp [h1, h2, hne, List.mem_append]
  · have hne : ¬ d.article_id_1 = d.article_id_2 := fun e => h2 (h1.trans e)
    simp [h1, h2, hne, List.mem_append]
  · simp [h1, h2]

/-- Adjacency of the built graph: exactly the endpoints of the listed
pairs, each edge inserted in both directions. -/
theorem mem_adjList_buildConnections (dups : List SimilarityResult)
    (x : String) (p : String × ℚ) :
    p ∈ adjList (buildConnections dups) x ↔
      ∃ d ∈ dups,
        (d.article_id_1 = x ∧ p = (d.article_id_2, d.overall_similarity)) ∨
        (d.article_id_2 = x ∧ p = (d.article_id_1, d.overall_similarity)) := by
  have main : ∀ (ds : List SimilarityResult) (g0 : ConnGraph),
      p ∈ adjList (ds.foldl addDuplicate g0) x ↔ p ∈ adjList g0 x ∨
        ∃ d ∈ ds,
          (d.article_id_1 = x ∧ p = (d.article_id_2, d.overall_similarity)) ∨
          (d.article_id_2 = x ∧ p = (d.article_id_1, d.overall_similarity)) := by
    intro ds
    induction ds with
    | nil => simp
    | cons d rest ih =>
      intro g0
      rw [List.foldl_cons, ih, mem_adjList_addDuplicate]
      simp only [List.mem_cons]
      constructor
      · rintro ((h | ⟨h1, h2⟩ | ⟨h1, h2⟩) | ⟨d', hd', h⟩)
        · exact Or.inl h
        · exact Or.inr ⟨d, Or.inl rfl, Or.inl ⟨h1.symm, h2⟩⟩
        · exact Or.inr ⟨d, Or.inl rfl, Or.inr ⟨h1.symm, h2⟩⟩
        · exact Or.inr ⟨d', Or.inr hd', h⟩
      · rintro (h | ⟨d', hd' | hd', h⟩)
        · exact Or.inl (Or.inl h)
        · subst hd'
          rcases h with ⟨h1, h2⟩ | ⟨h1, h2⟩
          · exact Or.inl (Or.inr (Or.inl ⟨h1.symm, h2⟩))
          · exact Or.inl (Or.inr (Or.inr ⟨h1.symm, h2⟩))
        · exact Or.inr ⟨d', hd', h⟩
  rw [buildConnections, main]
  simp [adjList]

/-- The built graph's edges are exactly the duplicate-pair edges. -/
theorem graphEdge_buildConnections (dups : List SimilarityResult)
    (a b : String) :
    graphEdge (buildConnections dups) a b ↔ dupEdge dups a b := by
  unfold graphEdge dupEdge
  constructor
  · rintro ⟨p, hp, rfl⟩
    rw [mem_adjList_buildConnections] at hp
    obtain ⟨d, hd, ⟨h1, h2⟩ | ⟨h1, h2⟩⟩ := hp
    · exact ⟨d, hd, Or.inl ⟨h1, by rw [h2]⟩⟩
    · exact ⟨d, hd, Or.inr ⟨by rw [h2], h1⟩⟩
  · rintro ⟨d, hd, ⟨h1, h2⟩ | ⟨h1, h2⟩⟩
    · exact ⟨(d.article_id_2, d.overall_similarity),
        (mem_adjList_buildConnections dups a _).mpr ⟨d, hd, Or.inl ⟨h1, rfl⟩⟩, h2⟩
    · exact ⟨(d.article_id_1, d.overall_similarity),
        (mem_adjList_buildConnections dups a _).mpr ⟨d, hd, Or.inr ⟨h2, rfl⟩⟩, h1⟩

/-- Edges of the built graph are symmetric. -/
theorem graphEdge_buildConnections_symm (dups : List SimilarityResult)
    (a b : String) (h : graphEdge (buildConnections dups) a b) :
    graphEdge (buildConnections dups) b a := by
  rw [graphEdge_buildConnections] at h ⊢
  obtain ⟨d, hd, h⟩ := h
  exact ⟨d, hd, h.symm⟩

/-- Every neighbour id occurring in an adjacency list is a node of the
graph. -/
theorem nbr_mem_graphNodes (g : ConnGraph) (x : String) (p : String × ℚ)
    (h : p ∈ adjList g x) : p.1 ∈ graphNodes g := by
  unfold adjList at h
  cases hf : List.find? (fun kv => kv.1 == x) g with
  | none => rw [hf] at h; simp at h
  | some kv =>
    rw [hf] at h
    have hkv : kv ∈ g := List.mem_of_find?_eq_some hf
    unfold graphNodes
    rw [List.mem_dedup, List.mem_append]
    exact Or.inr (List.mem_flatMap.mpr ⟨kv, hkv, List.mem_map.mpr ⟨p, h, rfl⟩⟩)

/-- What one pass of the neighbour-enqueueing loop does: some sublist `l`
of fresh neighbour ids is pushed, each marked visited, and afterwards
every neighbour id is visited. -/
theorem enqueueNew_spec (nbrs : List (String × ℚ)) :
    ∀ v q, ∃ l : List String,
      (enqueueNew nbrs (v, q)).1 = l.reverse ++ v ∧
      (enqueueNew nbrs (v, q)).2 = q ++ l ∧
      l.Nodup ∧
      (∀ x ∈ l, x ∉ v ∧ x ∈ nbrs.map Prod.fst) ∧
      (∀ p ∈ nbrs, p.1 ∈ (enqueueNew nbrs (v, q)).1) := by
  induction nbrs with
  | nil => exact fun v q => ⟨[], rfl, by simp [enqueueNew], List.nodup_nil,
      by simp, by simp⟩
  | cons p rest ih =>
    intro v q
    by_cases hp : p.1 ∈ v
    · have hstep : enqueueNew (p :: rest) (v, q) = enqueueNew rest (v, q) := by
        simp [enqueueNew, hp]
      obtain ⟨l, h1, h2, h3, h4, h5⟩ := ih v q
      refine ⟨l, by rw [hstep]; exact h1, by rw [hstep]; exact h2, h3, ?_, ?_⟩
      · intro x hx
        obtain ⟨hxv, hxm⟩ := h4 x hx
        exact ⟨hxv, by simp [hxm]⟩
      · intro p' hp'
        rw [hstep]
        rcases List.mem_cons.mp hp' with rfl | hmem
        · rw [h1]
          exact List.mem_append_right _ hp
        · exact h5 p' hmem
    · have hstep : enqueueNew (p :: rest) (v, q) =
          enqueueNew rest (p.1 :: v, q ++ [p.1]) := by
        simp [enqueueNew, hp]
      obtain ⟨l, h1, h2, h3, h4, h5⟩ := ih (p.1 :: v) (q ++ [p.1])
      refine ⟨p.1 :: l, ?_, ?_, ?_, ?_, ?_⟩
      · rw [hstep, h1]
        simp
      · rw [hstep, h2]
        simp
      · refine List.nodup_cons.mpr ⟨?_, h3⟩
        intro hmem
        exact (h4 p.1 hmem).1 (List.mem_cons_self _ _)
      · intro x hx
        rcases List.mem_cons.mp hx with rfl | hmem
        · exact ⟨hp, by simp⟩
        · obtain ⟨hxv, hxm⟩ := h4 x hmem
          exact ⟨fun hv => hxv (List.mem_cons_of_mem _ hv), by simp [hxm]⟩
      · intro p' hp'
        rw [hstep]
        rcases List.mem_cons.mp hp' with rfl | hmem
        · obtain ⟨l', e1, _, _, _, _⟩ := ih (p'.1 :: v) (q ++ [p'.1])
          rw [e1]
          exact List.mem_append_right _ (List.mem_cons_self _ _)
        · exact h5 p' hmem

/-- The BFS loop invariant.  With `V0` the externally visited set, a
completed loop returns an accumulator that is exactly the fresh part of
the visited set: duplicate-free, disjoint from `V0`, adjacency-closed
into the final visited set, starting with the queue's head, and reachable
from the initial queue. -/
theorem bfsLoop_spec (g : ConnGraph) (V0 : List String) :
    ∀ (fuel : ℕ) (queue visited acc : List String)
      (accv : List String × List String),
      bfsLoop g fuel queue visited acc = some accv →
      (∀ x, x ∈ visited ↔ x ∈ acc ∨ x ∈ queue ∨ x ∈ V0) →
      (acc ++ queue).Nodup →
      (∀ x ∈ acc ++ queue, x ∉ V0) →
      (∀ x ∈ acc, ∀ p ∈ adjList g x, p.1 ∈ visited) →
      (∀ x, x ∈ accv.2 ↔ x ∈ accv.1 ∨ x ∈ V0) ∧
      accv.1.Nodup ∧
      (∃ t, accv.1 = acc ++ t) ∧
      (∀ c rest, queue = c :: rest → ∃ t, accv.1 = acc ++ c :: t) ∧
      (∀ x ∈ accv.1, x ∉ V0) ∧
      (∀ x ∈ accv.1, ∀ p ∈ adjList g x, p.1 ∈ accv.2) ∧
      (∀ x ∈ accv.1, x ∈ acc ∨ ∃ y ∈ queue, graphReach g y x) := by
  intro fuel
  induction fuel with
  | zero =>
    intro queue visited acc accv h hI1 hI2 hI3 hI4
    cases queue with
    | nil =>
      simp only [bfsLoop, Option.some.injEq] at h
      subst h
      refine ⟨fun x => ?_, ?_, ⟨[], by simp⟩, ?_, ?_, hI4, fun x hx => Or.inl hx⟩
      · have := hI1 x
        simpa using this
      · simpa using hI2
      · intro c rest hq
        cases hq
      · intro x hx
        exact hI3 x (by simpa using hx)
    | cons c rest => simp [bfsLoop] at h
  | succ fuel ih =>
    intro queue visited acc accv h hI1 hI2 hI3 hI4
    cases queue with
    | nil =>
      simp only [bfsLoop, Option.some.injEq] at h
      subst h
      refine ⟨fun x => ?_, ?_, ⟨[], by simp⟩, ?_, ?_, hI4, fun x hx => Or.inl hx⟩
      · have := hI1 x
        simpa using this
      · simpa using hI2
      · intro c rest hq
        cases hq
      · intro x hx
        exact hI3 x (by simpa using hx)
    | cons c rest =>
      have hstep : bfsLoop g (fuel + 1) (c :: rest) visited acc =
          bfsLoop g fuel (enqueueNew (adjList g c) (visited, rest)).2
            (enqueueNew (adjList g c) (visited, rest)).1 (acc ++ [c]) := rfl
      rw [hstep] at h
      obtain ⟨l, e1, e2, hl3, hl4, hl5⟩ := enqueueNew_spec (adjList g c) visited rest
      have hVvis : ∀ x ∈ V0, x ∈ visited := fun x hx => (hI1 x).mpr (Or.inr (Or.inr hx))
      have hI1' : ∀ x, x ∈ (enqueueNew (adjList g c) (visited, rest)).1 ↔
          x ∈ acc ++ [c] ∨ x ∈ (enqueueNew (adjList g c) (visited, rest)).2 ∨ x ∈ V0 := by
        intro x
        rw [e1, e2]
        have h0 := hI1 x
        simp only [List.mem_append, List.mem_reverse, List.mem_cons,
          List.mem_singleton] at h0 ⊢
        tauto
      have hI2' : ((acc ++ [c]) ++ (enqueueNew (adjList g c) (visited, rest)).2).Nodup := by
        rw [e2]
        have hperm : (acc ++ [c]) ++ (rest ++ l) = (acc ++ c :: rest) ++ l := by
          simp
        rw [hperm, List.nodup_append]
        refine ⟨hI2, hl3, ?_⟩
        intro a ha hal
        have hav : a ∈ visited := by
          rcases List.mem_append.mp ha with h' | h'
          · exact (hI1 a).mpr (Or.inl h')
          · exact (hI1 a).mpr (Or.inr (Or.inl h'))
        exact (hl4 a hal).1 hav
      have hI3' : ∀ x ∈ (acc ++ [c]) ++ (enqueueNew (adjList g c) (visited, rest)).2,
          x ∉ V0 := by
        rw [e2]
        intro x hx
        simp only [List.mem_append, List.mem_singleton] at hx
        rcases hx with (hx | hx) | hx | hx
        · exact hI3 x (List.mem_append_left _ hx)
        · subst hx
          exact hI3 x (List.mem_append_right _ (List.mem_cons_self _ _))
        · exact hI3 x (List.mem_append_right _ (List.mem_cons_of_mem _ hx))
        · intro hV
          exact (hl4 x hx).1 (hVvis x hV)
      have hI4' : ∀ x ∈ acc ++ [c], ∀ p ∈ adjList g x,
          p.1 ∈ (enqueueNew (adjList g c) (visited, rest)).1 := by
        intro x hx p hp
        rcases List.mem_append.mp hx with hx | hx
        · rw [e1]
          exact List.mem_append_right _ (hI4 x hx p hp)
        · rw [List.mem_singleton] at hx
          subst hx
          exact hl5 p hp
      obtain ⟨c1, c2, c3, _, c5, c6, c7⟩ := ih _ _ _ accv h hI1' hI2' hI3' hI4'
      refine ⟨c1, c2, ?_, ?_, c5, c6, ?_⟩
      · obtain ⟨t, ht⟩ := c3
        exact ⟨c :: t, by rw [ht]; simp⟩
      · intro c' rest' hq
        injection hq with hc hrest
        subst hc
        obtain ⟨t, ht⟩ := c3
        exact ⟨t, by rw [ht]; simp⟩
      · intro x hx
        rcases c7 x hx with hacc | ⟨y, hy, hreach⟩
        · rcases List.mem_append.mp hacc with h' | h'
          · exact Or.inl h'
          · rw [List.mem_singleton] at h'
            subst h'
            exact Or.inr ⟨x, List.mem_cons_self _ _, Relation.ReflTransGen.refl⟩
        · rw [e2] at hy
          rcases List.mem_append.mp hy with hy | hy
          · exact Or.inr ⟨y, List.mem_cons_of_mem _ hy, hreach⟩
          · have hedge : graphEdge g c y := by
              obtain ⟨p, hp, hpy⟩ := List.mem_map.mp (hl4 y hy).2
              exact ⟨p, hp, hpy⟩
            exact Or.inr ⟨c, List.mem_cons_self _ _,
              Relation.ReflTransGen.head hedge hreach⟩

/-- Enqueueing `l` fresh nodes shrinks the unvisited-node count by at
least `l.length`. -/
theorem unvis_decrement (s l v v' : List String) (hs : s.Nodup)
    (hl : l.Nodup) (hls : ∀ x ∈ l, x ∈ s) (hlv : ∀ x ∈ l, x ∉ v)
    (hvv' : ∀ x ∈ v, x ∈ v') (hlv' : ∀ x ∈ l, x ∈ v') :
    (s.filter (fun x => !decide (x ∈ v'))).length + l.length ≤
      (s.filter (fun x => !decide (x ∈ v))).length := by
  have key : ((s.filter (fun x => !decide (x ∈ v'))) ++ l).Subperm
      (s.filter (fun x => !decide (x ∈ v))) := by
    apply List.subperm_of_subset
    · rw [List.nodup_append]
      refine ⟨hs.filter _, hl, ?_⟩
      intro a ha hal
      rw [List.mem_filter] at ha
      have hv' : a ∉ v' := by simpa using ha.2
      exact hv' (hlv' a hal)
    · intro a ha
      rw [List.mem_append] at ha
      rw [List.mem_filter]
      rcases ha with ha | ha
      · rw [List.mem_filter] at ha
        have hav' : a ∉ v' := by simpa using ha.2
        exact ⟨ha.1, by simpa using fun hv => hav' (hvv' a hv)⟩
      · exact ⟨hls a ha, by simpa using hlv a ha⟩
  simpa using key.length_le

/-- With fuel at least the queue length plus the number of unvisited
nodes, the BFS loop completes. -/
theorem bfsLoop_terminates (g : ConnGraph) :
    ∀ (fuel : ℕ) (queue visited acc : List String),
      queue.length +
        ((graphNodes g).filter (fun x => !decide (x ∈ visited))).length ≤ fuel →
      ∃ accv, bfsLoop g fuel queue visited acc = some accv := by
  intro fuel
  induction fuel with
  | zero =>
    intro queue visited acc hm
    have hq : queue = [] := List.eq_nil_of_length_eq_zero (by omega)
    subst hq
    exact ⟨(acc, visited), rfl⟩
  | succ fuel ih =>
    intro queue visited acc hm
    cases queue with
    | nil => exact ⟨(acc, visited), rfl⟩
    | cons c rest =>
      have hstep : bfsLoop g (fuel + 1) (c :: rest) visited acc =
          bfsLoop g fuel (enqueueNew (adjList g c) (visited, rest)).2
            (enqueueNew (adjList g c) (visited, rest)).1 (acc ++ [c]) := rfl
      rw [hstep]
      obtain ⟨l, e1, e2, hl3, hl4, _⟩ := enqueueNew_spec (adjList g c) visited rest
      apply ih
      rw [e2, e1, List.length_append]
      have hdec := unvis_decrement (graphNodes g) l visited (l.reverse ++ visited)
        (List.nodup_dedup _) hl3
        (fun x hx => by
          obtain ⟨p, hp, hpx⟩ := List.mem_map.mp (hl4 x hx).2
          rw [← hpx]
          exact nbr_mem_graphNodes g c p hp)
        (fun x hx => (hl4 x hx).1)
        (fun x hx => List.mem_append_right _ hx)
        (fun x hx => List.mem_append_left _ (List.mem_reverse.mpr hx))
      simp only [List.length_cons] at hm
      omega

/-- Specification of one whole BFS run from a fresh start node. -/
theorem runBFS_spec (g : ConnGraph) (s : String) (V0 : List String)
    (hs : s ∉ V0) :
    (∀ x, x ∈ (runBFS g s V0).2 ↔ x ∈ (runBFS g s V0).1 ∨ x ∈ V0) ∧
    (runBFS g s V0).1.Nodup ∧
    (∃ t, (runBFS g s V0).1 = s :: t) ∧
    (∀ x ∈ (runBFS g s V0).1, x ∉ V0) ∧
    (∀ x ∈ (runBFS g s V0).1, ∀ p ∈ adjList g x, p.1 ∈ (runBFS g s V0).2) ∧
    (∀ x ∈ (runBFS g s V0).1, graphReach g s x) := by
  obtain ⟨accv, hacc⟩ := bfsLoop_terminates g (bfsFuel g) [s] (s :: V0) [] (by
    have := List.length_filter_le (fun x => !decide (x ∈ s :: V0)) (graphNodes g)
    simp only [bfsFuel, List.length_singleton]
    omega)
  have hrun : runBFS g s V0 = accv := by
    rw [runBFS, hacc]
    rfl
  obtain ⟨c1, c2, c3, c4, c5, c6, c7⟩ :=
    bfsLoop_spec g V0 (bfsFuel g) [s] (s :: V0) [] accv hacc
      (by intro x; simp only [List.mem_cons, List.not_mem_nil, false_or,
            List.mem_singleton]; tauto)
      (by simp)
      (by intro x hx
          simp only [List.nil_append, List.mem_singleton] at hx
          subst hx
          exact hs)
      (by intro x hx; simp at hx)
  rw [hrun]
  refine ⟨c1, c2, ?_, c5, c6, ?_⟩
  · obtain ⟨t, ht⟩ := c4 s [] rfl
    exact ⟨t, by simpa using ht⟩
  · intro x hx
    rcases c7 x hx with h | ⟨y, hy, hr⟩
    · simp at h
    · rw [List.mem_singleton] at hy
      subst hy
      exact hr

/-- Completeness of the BFS run: when the previously visited set is
adjacency-closed and the graph is symmetric, every node reachable from
the start node lands in the returned component. -/
theorem runBFS_complete (g : ConnGraph) (s : String) (V0 : List String)
    (hs : s ∉ V0)
    (hcl : ∀ x ∈ V0, ∀ p ∈ adjList g x, p.1 ∈ V0)
    (hsym : ∀ a b, graphEdge g a b → graphEdge g b a) :
    ∀ x, graphReach g s x → x ∈ (runBFS g s V0).1 := by
  obtain ⟨c1, c2, c3, c4, c5, c6⟩ := runBFS_spec g s V0 hs
  have hclosed : ∀ x ∈ (runBFS g s V0).2, ∀ p ∈ adjList g x,
      p.1 ∈ (runBFS g s V0).2 := by
    intro x hx p hp
    rcases (c1 x).mp hx with h | h
    · exact c5 x h p hp
    · exact (c1 p.1).mpr (Or.inr (hcl x h p hp))
  have havoid : ∀ x, graphReach g s x → x ∉ V0 := by
    intro x hr
    induction hr with
    | refl => exact hs
    | tail hab hedge ihab =>
      intro hV
      obtain ⟨p, hp, hpb⟩ := hsym _ _ hedge
      have := hcl _ hV p hp
      rw [hpb] at this
      exact ihab this
  have hs2 : s ∈ (runBFS g s V0).2 := by
    obtain ⟨t, ht⟩ := c3
    exact (c1 s).mpr (Or.inl (by rw [ht]; exact List.mem_cons_self _ _))
  intro x hr
  have hx2 : x ∈ (runBFS g s V0).2 := by
    induction hr with
    | refl => exact hs2
    | tail hab hedge ih =>
      obtain ⟨p, hp, hpx⟩ := hedge
      have := hclosed _ ih p hp
      rwa [hpx] at this
  rcases (c1 x).mp hx2 with h | h
  · exact h
  · exact absurd h (havoid x hr)

/-- The invariant threaded through the outer `for article_id in
article_connections:` loop: the visited set is adjacency-closed, and
every cluster built so far is a duplicate-free connected component of
size at least 2 whose stored scores and action match its members, with
clusters pairwise disjoint and sequentially numbered. -/
structure ClusterInv (g : ConnGraph) (dups : List SimilarityResult)
    (st : List String × List DuplicateCluster) : Prop where
  closed : ∀ x ∈ st.1, ∀ p ∈ adjList g x, p.1 ∈ st.1
  members_sub : ∀ cl ∈ st.2, ∀ x ∈ memberIds cl, x ∈ st.1
  members_nodup : ∀ cl ∈ st.2, (memberIds cl).Nodup
  nontrivial : ∀ cl ∈ st.2, cl.duplicate_article_ids ≠ []
  endpoints : ∀ cl ∈ st.2, ∀ x ∈ memberIds cl, dupEndpoint dups x
  component : ∀ cl ∈ st.2, ∀ x,
    x ∈ memberIds cl ↔ graphReach g cl.primary_article_id x
  scores : ∀ cl ∈ st.2, cl.similarity_scores = clusterScores dups (memberIds cl)
  action : ∀ cl ∈ st.2,
    cl.recommended_action = recommendedActionFor (listMean cl.similarity_scores)
  disj : st.2.Pairwise (fun c d => ∀ x ∈ memberIds c, x ∉ memberIds d)
  ids : st.2.map (fun c => c.cluster_id) =
    (List.range st.2.length).map (fun k => "cluster_" ++ toString (k + 1))

/-- The invariant holds for the empty initial state. -/
theorem clusterInv_init (g : ConnGraph) (dups : List SimilarityResult) :
    ClusterInv g dups ([], []) := by
  refine ⟨?_, ?_, ?_, ?_, ?_, ?_, ?_, ?_, ?_, ?_⟩ <;> simp

/-- One outer-loop step preserves the invariant. -/
theorem clusterStep_inv (g : ConnGraph) (dups : List SimilarityResult)
    (st : List String × List DuplicateCluster) (a : String)
    (hsym : ∀ x y, graphEdge g x y → graphEdge g y x)
    (hedge : ∀ x y, graphEdge g x y → dupEdge dups x y)
    (hinv : ClusterInv g dups st) :
    ClusterInv g dups (clusterStep g dups st a) := by
  have hstep : clusterStep g dups st a =
      if a ∈ st.1 then st else
        if 1 < (runBFS g a st.1).1.length then
          ((runBFS g a st.1).2, st.2 ++
            [{ cluster_id := "cluster_" ++ toString (st.2.length + 1)
               primary_article_id := (runBFS g a st.1).1.headD ""
               duplicate_article_ids := (runBFS g a st.1).1.tail
               similarity_scores := clusterScores dups (runBFS g a st.1).1
               recommended_action :=
                 recommendedActionFor
                   (listMean (clusterScores dups (runBFS g a st.1).1)) }])
        else ((runBFS g a st.1).2, st.2) := rfl
  rw [hstep]
  by_cases ha : a ∈ st.1
  · rw [if_pos ha]
    exact hinv
  · rw [if_neg ha]
    obtain ⟨c1, c2, ⟨t, ht⟩, c4, c5, c6⟩ := runBFS_spec g a st.1 ha
    have hcomplete := runBFS_complete g a st.1 ha hinv.closed hsym
    have hclosed' : ∀ x ∈ (runBFS g a st.1).2, ∀ p ∈ adjList g x,
        p.1 ∈ (runBFS g a st.1).2 := by
      intro x hx p hp
      rcases (c1 x).mp hx with h | h
      · exact c5 x h p hp
      · exact (c1 p.1).mpr (Or.inr (hinv.closed x h p hp))
    have hold : ∀ x ∈ st.1, x ∈ (runBFS g a st.1).2 :=
      fun x hx => (c1 x).mpr (Or.inr hx)
    by_cases hlen : 1 < (runBFS g a st.1).1.length
    · rw [if_pos hlen]
      have hmem : memberIds
          { cluster_id := "cluster_" ++ toString (st.2.length + 1)
            primary_article_id := (runBFS g a st.1).1.headD ""
            duplicate_article_ids := (runBFS g a st.1).1.tail
            similarity_scores := clusterScores dups (runBFS g a st.1).1
            recommended_action :=
              recommendedActionFor
                (listMean (clusterScores dups (runBFS g a st.1).1)) } =
          (runBFS g a st.1).1 := by
        rw [memberIds, ht]
        rfl
      have hprimary : (runBFS g a st.1).1.headD "" = a := by rw [ht]; rfl
      have htne : t ≠ [] := by
        intro e
        rw [ht, e] at hlen
        simp at hlen
      refine ⟨hclosed', ?_, ?_, ?_, ?_, ?_, ?_, ?_, ?_, ?_⟩
      · intro cl hcl x hx
        rcases List.mem_append.mp hcl with h | h
        · exact hold x (hinv.members_sub cl h x hx)
        · rw [List.mem_singleton] at h
          subst h
          rw [hmem] at hx
          exact (c1 x).mpr (Or.inl hx)
      · intro cl hcl
        rcases List.mem_append.mp hcl with h | h
        · exact hinv.members_nodup cl h
        · rw [List.mem_singleton] at h
          subst h
          rw [hmem]
          exact c2
      · intro cl hcl
        rcases List.mem_append.mp hcl with h | h
        · exact hinv.nontrivial cl h
        · rw [List.mem_singleton] at h
          subst h
          simpa [ht] using htne
      · intro cl hcl x hx
        rcases List.mem_append.mp hcl with h | h
        · exact hinv.endpoints cl h x hx
        · rw [List.mem_singleton] at h
          subst h
          rw [hmem] at hx
          rcases (c6 x hx).cases_tail with heq | ⟨y, -, hyx⟩
          · rw [heq]
            obtain ⟨y0, t', ht'⟩ : ∃ y0 t', t = y0 :: t' := by
              cases t with
              | nil => exact absurd rfl htne
              | cons y0 t' => exact ⟨y0, t', rfl⟩
            have hy0 : y0 ∈ (runBFS g a st.1).1 := by
              rw [ht, ht']
              exact List.mem_cons_of_mem _ (List.mem_cons_self _ _)
            rcases (c6 y0 hy0).cases_head with heq2 | ⟨z, haz, -⟩
            · exfalso
              have hnd := c2
              rw [ht, ht'] at hnd
              rw [← heq2] at hnd
              exact (List.nodup_cons.mp hnd).1 (List.mem_cons_self _ _)
            · obtain ⟨d, hd, hor⟩ := hedge _ _ haz
              rcases hor with ⟨h1, -⟩ | ⟨-, h2⟩
              · exact ⟨d, hd, Or.inl h1⟩
              · exact ⟨d, hd, Or.inr h2⟩
          · obtain ⟨d, hd, hor⟩ := hedge _ _ hyx
            rcases hor with ⟨-, h2⟩ | ⟨h1, -⟩
            · exact ⟨d, hd, Or.inr h2⟩
            · exact ⟨d, hd, Or.inl h1⟩
      · intro cl hcl x
        rcases List.mem_append.mp hcl with h | h
        · exact hinv.component cl h x
        · rw [List.mem_singleton] at h
          subst h
          rw [hmem]
          simp only [hprimary]
          exact ⟨c6 x, hcomplete x⟩
      · intro cl hcl
        rcases List.mem_append.mp hcl with h | h
        · exact hinv.scores cl h
        · rw [List.mem_singleton] at h
          subst h
          rw [hmem]
      · intro cl hcl
        rcases List.mem_append.mp hcl with h | h
        · exact hinv.action cl h
        · rw [List.mem_singleton] at h
          subst h
          rfl
      · rw [List.pairwise_append]
        refine ⟨hinv.disj, by simp, ?_⟩
        intro cl hcl cl' hcl' x hx
        rw [List.mem_singleton] at hcl'
        subst hcl'
        rw [hmem]
        intro hx'
        exact c4 x hx' (hinv.members_sub cl hcl x hx)
      · rw [List.map_append, List.length_append, hinv.ids]
        simp [List.range_succ]
    · rw [if_neg hlen]
      exact ⟨hclosed', fun cl hcl x hx => hold x (hinv.members_sub cl hcl x hx),
        hinv.members_nodup, hinv.nontrivial, hinv.endpoints, hinv.component,
        hinv.scores, hinv.action, hinv.disj, hinv.ids⟩

/-- The invariant survives the whole outer loop. -/
theorem foldl_clusterStep_inv (g : ConnGraph) (dups : List SimilarityResult)
    (hsym : ∀ x y, graphEdge g x y → graphEdge g y x)
    (hedge : ∀ x y, graphEdge g x y → dupEdge dups x y) :
    ∀ (ks : List String) (st), ClusterInv g dups st →
      ClusterInv g dups (ks.foldl (clusterStep g dups) st) := by
  intro ks
  induction ks with
  | nil => exact fun st h => h
  | cons a rest ih =>
    intro st h
    exact ih _ (clusterStep_inv g dups st a hsym hedge h)

/-- The invariant holds of `identify_duplicate_clusters`' output, paired
with its final visited set. -/
theorem identify_inv (rs : List SimilarityResult) :
    ∃ vis, ClusterInv (buildConnections (rs.filter (fun r => r.is_duplicate)))
      (rs.filter (fun r => r.is_duplicate))
      (vis, identify_duplicate_clusters rs) := by
  have hstep : identify_duplicate_clusters rs =
      if (rs.filter (fun r => r.is_duplicate)).isEmpty then []
      else (((buildConnections (rs.filter (fun r => r.is_duplicate))).map
          Prod.fst).foldl
        (clusterStep (buildConnections (rs.filter (fun r => r.is_duplicate)))
          (rs.filter (fun r => r.is_duplicate))) ([], [])).2 := rfl
  by_cases hdup : (rs.filter (fun r => r.is_duplicate)).isEmpty
  · refine ⟨[], ?_⟩
    rw [hstep, if_pos hdup]
    exact clusterInv_init _ _
  · have hsym := graphEdge_buildConnections_symm (rs.filter (fun r => r.is_duplicate))
    have hedge : ∀ x y,
        graphEdge (buildConnections (rs.filter (fun r => r.is_duplicate))) x y →
        dupEdge (rs.filter (fun r => r.is_duplicate)) x y :=
      fun x y h => (graphEdge_buildConnections _ x y).mp h
    have hres := foldl_clusterStep_inv _ _ hsym hedge
      ((buildConnections (rs.filter (fun r => r.is_duplicate))).map Prod.fst)
      ([], []) (clusterInv_init _ _)
    refine ⟨(((buildConnections (rs.filter (fun r => r.is_duplicate))).map
        Prod.fst).foldl
      (clusterStep (buildConnections (rs.filter (fun r => r.is_duplicate)))
        (rs.filter (fun r => r.is_duplicate))) ([], [])).1, ?_⟩
    rw [hstep, if_neg hdup]
    rw [Prod.mk.eta]
    exact hres

/-- C4: the clusters of one run partition a subset of the article ids — no
id occurs in two different clusters (primary and duplicate ids both
counted), every cluster has a primary plus at least one duplicate, and
every clustered id is an endpoint of a pair flagged duplicate. -/
theorem clusters_partition (rs : List SimilarityResult)
    (c d : DuplicateCluster)
    (hc : c ∈ identify_duplicate_clusters rs)
    (hd : d ∈ identify_duplicate_clusters rs)
    (hne : c ≠ d) :
    (∀ x ∈ memberIds c, x ∉ memberIds d) ∧
    c.duplicate_article_ids ≠ [] ∧
    (∀ x ∈ memberIds c, ∃ r ∈ rs, r.is_duplicate = true ∧
      (r.article_id_1 = x ∨ r.article_id_2 = x)) := by
  obtain ⟨vis, inv⟩ := identify_inv rs
  refine ⟨?_, inv.nontrivial c hc, ?_⟩
  · obtain ⟨i, hi⟩ := List.mem_iff_get.mp hc
    obtain ⟨j, hj⟩ := List.mem_iff_get.mp hd
    have hdisj := List.pairwise_iff_get.mp inv.disj
    rcases lt_trichotomy i j with hij | hij | hij
    · rw [← hi, ← hj]
      exact hdisj i j hij
    · exfalso
      apply hne
      rw [← hi, ← hj, hij]
    · intro x hxc hxd
      exact hdisj j i hij x (by rw [hj]; exact hxd) (by rw [hi]; exact hxc)
  · intro x hx
    obtain ⟨r, hr, hor⟩ := inv.endpoints c hc x hx
    rw [List.mem_filter] at hr
    exact ⟨r, hr.1, hr.2, hor⟩

/-- C6: each cluster's member set is exactly the connected component of
its primary in the duplicate-pair graph; its score list is exactly the
overall similarity of every duplicate pair with both endpoints among the
members, in input order; and the recommended action is determined by the
mean of those scores through the 0.95/0.85 cutoffs. -/
theorem cluster_component_scores_action (rs : List SimilarityResult)
    (c : DuplicateCluster)
    (hc : c ∈ identify_duplicate_clusters rs) :
    (∀ x, x ∈ memberIds c ↔
      dupConn (rs.filter (fun r => r.is_duplicate)) c.primary_article_id x) ∧
    c.similarity_scores =
      clusterScores (rs.filter (fun r => r.is_duplicate)) (memberIds c) ∧
    c.recommended_action = recommendedActionFor (listMean c.similarity_scores) := by
  obtain ⟨vis, inv⟩ := identify_inv rs
  refine ⟨?_, inv.scores c hc, inv.action c hc⟩
  intro x
  rw [inv.component c hc x]
  unfold graphReach dupConn
  constructor
  · exact Relation.ReflTransGen.mono
      (fun a b h => (graphEdge_buildConnections _ a b).mp h)
  · exact Relation.ReflTransGen.mono
      (fun a b h => (graphEdge_buildConnections _ a b).mpr h)

/-- A duplicate-flagged pair between articles `a` and `b`. -/
def pairAB : SimilarityResult :=
  { article_id_1 := "a", article_id_2 := "b", title_similarity := 1,
    content_similarity := 1, overall_similarity := 1, is_duplicate := true }

/-- A duplicate-flagged pair between articles `c` and `d`. -/
def pairCD : SimilarityResult :=
  { article_id_1 := "c", article_id_2 := "d", title_similarity := 1,
    content_similarity := 1, overall_similarity := 1, is_duplicate := true }

/-- The first cluster `identify_duplicate_clusters` builds from the two
pairs above. -/
def clusterAB : DuplicateCluster :=
  { cluster_id := "cluster_1", primary_article_id := "a",
    duplicate_article_ids := ["b"], similarity_scores := [1],
    recommended_action := "keep_primary" }

/-- The second cluster built from the two pairs above. -/
def clusterCD : DuplicateCluster :=
  { cluster_id := "cluster_2", primary_article_id := "c",
    duplicate_article_ids := ["d"], similarity_scores := [1],
    recommended_action := "keep_primary" }

/-- Concrete clustering run shared by the witnesses below. -/
theorem identify_twoPairs_eval :
    identify_duplicate_clusters [pairAB, pairCD] = [clusterAB, clusterCD] := by
  simp [identify_duplicate_clusters, buildConnections, addDuplicate, ensureKey,
    appendVal, clusterStep, runBFS, bfsLoop, bfsFuel, graphNodes, adjList,
    enqueueNew, clusterScores, listMean, recommendedActionFor, pairAB, pairCD,
    clusterAB, clusterCD]
  norm_num
  exact ⟨by decide, by decide⟩

/-- Witness for C4 at the concrete two-pair run. -/
theorem clusters_partition_witness :
    (∀ x ∈ memberIds clusterAB, x ∉ memberIds clusterCD) ∧
    clusterAB.duplicate_article_ids ≠ [] ∧
    (∀ x ∈ memberIds clusterAB, ∃ r ∈ [pairAB, pairCD], r.is_duplicate = true ∧
      (r.article_id_1 = x ∨ r.article_id_2 = x)) :=
  clusters_partition [pairAB, pairCD] clusterAB clusterCD
    (by rw [identify_twoPairs_eval]; exact List.mem_cons_self _ _)
    (by rw [identify_twoPairs_eval]
        exact List.mem_cons_of_mem _ (List.mem_cons_self _ _))
    (by decide)

/-- Witness for C6 at the concrete two-pair run. -/
theorem cluster_component_scores_action_witness :
    (∀ x, x ∈ memberIds clusterAB ↔
      dupConn ([pairAB, pairCD].filter (fun r => r.is_duplicate))
        clusterAB.primary_article_id x) ∧
    clusterAB.similarity_scores =
      clusterScores ([pairAB, pairCD].filter (fun r => r.is_duplicate))
        (memberIds clusterAB) ∧
    clusterAB.recommended_action =
      recommendedActionFor (listMean clusterAB.similarity_scores) :=
  cluster_component_scores_action [pairAB, pairCD] clusterAB
    (by rw [identify_twoPairs_eval]; exact List.mem_cons_self _ _)

/- ### C5: primary article and sequential cluster ids

The development below characterises the key insertion order of the
`article_connections` dict and shows the primary of each cluster is the
first article (in input order) among that cluster's members. -/

/-- `appendVal` never changes the dict's key list. -/
theorem keys_appendVal (g : ConnGraph) (k : String) (v : String × ℚ) :
    (appendVal g k v).map Prod.fst = g.map Prod.fst := by
  unfold appendVal
  rw [List.map_map]
  refine List.map_congr_left ?_
  intro kv _
  by_cases h : kv.1 = k <;> simp [h]

/-- `ensureKey` appends the key exactly when it is absent. -/
theorem keys_ensureKey (g : ConnGraph) (k : String) :
    (ensureKey g k).map Prod.fst =
      if g.any (fun kv => kv.1 == k) = true then g.map Prod.fst
      else g.map Prod.fst ++ [k] := by
  by_cases h : g.any (fun kv => kv.1 == k) = true
  · rw [ensureKey, if_pos h, if_pos h]
  · rw [ensureKey, if_neg h, if_neg h, List.map_append]
    rfl

/-- Key presence in the dict is membership in its key list. -/
theorem any_key_iff (g : ConnGraph) (k : String) :
    g.any (fun kv => kv.1 == k) = true ↔ k ∈ g.map Prod.fst := by
  rw [List.any_eq_true]
  constructor
  · rintro ⟨kv, hkv, he⟩
    exact List.mem_map.mpr ⟨kv, hkv, eq_of_beq he⟩
  · intro hk
    obtain ⟨kv, hkv, he⟩ := List.mem_map.mp hk
    exact ⟨kv, hkv, by simp [he]⟩

/-- `addDuplicate` changes the key list exactly as its two `ensureKey`
steps do — the two `append`s leave it alone. -/
theorem keys_addDuplicate (g : ConnGraph) (d : SimilarityResult) :
    (addDuplicate g d).map Prod.fst =
      (ensureKey (ensureKey g d.article_id_1) d.article_id_2).map Prod.fst := by
  have h : addDuplicate g d =
      appendVal
        (appendVal (ensureKey (ensureKey g d.article_id_1) d.article_id_2)
          d.article_id_1 (d.article_id_2, d.overall_similarity))
        d.article_id_2 (d.article_id_1, d.overall_similarity) := rfl
  rw [h, keys_appendVal, keys_appendVal]

/-- One `ensureKey` only ever appends keys. -/
theorem keys_ensureKey_suffix (g : ConnGraph) (k : String) :
    ∃ t, (ensureKey g k).map Prod.fst = g.map Prod.fst ++ t := by
  by_cases h : g.any (fun kv => kv.1 == k) = true
  · exact ⟨[], by rw [keys_ensureKey, if_pos h, List.append_nil]⟩
  · exact ⟨[k], by rw [keys_ensureKey, if_neg h]⟩

/-- One `addDuplicate` only ever appends keys. -/
theorem keys_addDuplicate_suffix (g : ConnGraph) (d : SimilarityResult) :
    ∃ t, (addDuplicate g d).map Prod.fst = g.map Prod.fst ++ t := by
  obtain ⟨t1, h1⟩ := keys_ensureKey_suffix g d.article_id_1
  obtain ⟨t2, h2⟩ :=
    keys_ensureKey_suffix (ensureKey g d.article_id_1) d.article_id_2
  exact ⟨t1 ++ t2, by rw [keys_addDuplicate, h2, h1, List.append_assoc]⟩

/-- The whole graph-building fold only ever appends keys. -/
theorem keys_foldl_suffix (ds : List SimilarityResult) :
    ∀ g : ConnGraph, ∃ t, (ds.foldl addDuplicate g).map Prod.fst =
      g.map Prod.fst ++ t := by
  induction ds with
  | nil => exact fun g => ⟨[], by simp⟩
  | cons d rest ih =>
    intro g
    obtain ⟨t0, ht0⟩ := keys_addDuplicate_suffix g d
    obtain ⟨t1, ht1⟩ := ih (addDuplicate g d)
    exact ⟨t0 ++ t1, by rw [List.foldl_cons, ht1, ht0, List.append_assoc]⟩

/-- Every key after one `addDuplicate` step was present before or is one
of the pair's endpoints. -/
theorem mem_keys_addDuplicate (g : ConnGraph) (d : SimilarityResult)
    (x : String) (hx : x ∈ (addDuplicate g d).map Prod.fst) :
    x ∈ g.map Prod.fst ∨ x = d.article_id_1 ∨ x = d.article_id_2 := by
  rw [keys_addDuplicate, keys_ensureKey] at hx
  by_cases h2 :
      ((ensureKey g d.article_id_1).any fun kv => kv.1 == d.article_id_2) = true
  · rw [if_pos h2, keys_ensureKey] at hx
    by_cases h1 : (g.any fun kv => kv.1 == d.article_id_1) = true
    · rw [if_pos h1] at hx
      exact Or.inl hx
    · rw [if_neg h1] at hx
      rcases List.mem_append.mp hx with h | h
      · exact Or.inl h
      · exact Or.inr (Or.inl (List.mem_singleton.mp h))
  · rw [if_neg h2, keys_ensureKey] at hx
    by_cases h1 : (g.any fun kv => kv.1 == d.article_id_1) = true
    · rw [if_pos h1] at hx
      rcases List.mem_append.mp hx with h | h
      · exact Or.inl h
      · exact Or.inr (Or.inr (List.mem_singleton.mp h))
    · rw [if_neg h1] at hx
      rcases List.mem_append.mp hx with h | h
      · rcases List.mem_append.mp h with h' | h'
        · exact Or.inl h'
        · exact Or.inr (Or.inl (List.mem_singleton.mp h'))
      · exact Or.inr (Or.inr (List.mem_singleton.mp h))

/-- Dict key insertion order: for a predicate that never separates the two
endpoints of a listed pair, the first key of the built dict satisfying it
is `article_id_1` of the first listed pair whose endpoints satisfy it. -/
theorem keys_find_first (S : String → Bool) :
    ∀ dups : List SimilarityResult,
      (∀ d ∈ dups, S d.article_id_1 = S d.article_id_2) →
      ∀ g0 : ConnGraph, (∀ x ∈ g0.map Prod.fst, S x = false) →
      ((dups.foldl addDuplicate g0).map Prod.fst).find? S =
        (dups.find? (fun r => S r.article_id_1)).map
          (fun r => r.article_id_1) := by
  intro dups
  induction dups with
  | nil =>
    intro _ g0 hg0
    rw [List.foldl_nil]
    have hnone : (g0.map Prod.fst).find? S = none :=
      List.find?_eq_none.mpr (fun x hx => by simp [hg0 x hx])
    rw [hnone, List.find?_nil]
    rfl
  | cons d rest ih =>
    intro hclos g0 hg0
    have hcd := hclos d (List.mem_cons_self _ _)
    have hrest : ∀ d' ∈ rest, S d'.article_id_1 = S d'.article_id_2 :=
      fun d' hd' => hclos d' (List.mem_cons_of_mem _ hd')
    rw [List.foldl_cons]
    by_cases hS : S d.article_id_1 = true
    · have hnot : ¬ (g0.any fun kv => kv.1 == d.article_id_1) = true := by
        intro h
        have hf := hg0 _ ((any_key_iff g0 d.article_id_1).mp h)
        rw [hS] at hf
        exact Bool.noConfusion hf
      have h1 : (ensureKey g0 d.article_id_1).map Prod.fst =
          g0.map Prod.fst ++ [d.article_id_1] := by
        rw [keys_ensureKey, if_neg hnot]
      have hkeys : ∃ t, (addDuplicate g0 d).map Prod.fst =
          g0.map Prod.fst ++ d.article_id_1 :: t := by
        by_cases h2 : ((ensureKey g0 d.article_id_1).any
            fun kv => kv.1 == d.article_id_2) = true
        · refine ⟨[], ?_⟩
          rw [keys_addDuplicate, keys_ensureKey, if_pos h2, h1]
        · refine ⟨[d.article_id_2], ?_⟩
          rw [keys_addDuplicate, keys_ensureKey, if_neg h2, h1,
            List.append_assoc]
          rfl
      obtain ⟨t, ht⟩ := hkeys
      obtain ⟨t2, ht2⟩ := keys_foldl_suffix rest (addDuplicate g0 d)
      rw [ht2, ht, List.append_assoc, List.find?_append]
      have hnone : (g0.map Prod.fst).find? S = none :=
        List.find?_eq_none.mpr (fun x hx => by simp [hg0 x hx])
      rw [hnone, Option.none_or, List.cons_append,
        List.find?_cons_of_pos (t ++ t2) hS,
        List.find?_cons_of_pos rest
          (show (fun r => S r.article_id_1) d = true from hS)]
      rfl
    · have hS1 : S d.article_id_1 = false := by
        cases h : S d.article_id_1
        · rfl
        · exact absurd h hS
      have hS2 : S d.article_id_2 = false := by
        rw [← hcd]
        exact hS1
      have hg1 : ∀ x ∈ (addDuplicate g0 d).map Prod.fst, S x = false := by
        intro x hx
        rcases mem_keys_addDuplicate g0 d x hx with h | h | h
        · exact hg0 x h
        · rw [h]; exact hS1
        · rw [h]; exact hS2
      rw [ih hrest (addDuplicate g0 d) hg1,
        List.find?_cons_of_neg rest
          (show ¬ (fun r => S r.article_id_1) d = true from by simp [hS1])]

/-- How one outer-loop step changes the state: the visited set only
grows, the processed key ends up visited, and any newly appended cluster
has the processed key as primary, among its members, with all members
previously unvisited. -/
theorem clusterStep_cases (g : ConnGraph) (dups : List SimilarityResult)
    (st : List String × List DuplicateCluster) (a : String) :
    (∀ x ∈ st.1, x ∈ (clusterStep g dups st a).1) ∧
    a ∈ (clusterStep g dups st a).1 ∧
    ((clusterStep g dups st a).2 = st.2 ∨
      ∃ cl, (clusterStep g dups st a).2 = st.2 ++ [cl] ∧
        cl.primary_article_id = a ∧ a ∈ memberIds cl ∧
        ∀ x ∈ memberIds cl, x ∉ st.1) := by
  have hstep : clusterStep g dups st a =
      if a ∈ st.1 then st else
        if 1 < (runBFS g a st.1).1.length then
          ((runBFS g a st.1).2, st.2 ++
            [{ cluster_id := "cluster_" ++ toString (st.2.length + 1)
               primary_article_id := (runBFS g a st.1).1.headD ""
               duplicate_article_ids := (runBFS g a st.1).1.tail
               similarity_scores := clusterScores dups (runBFS g a st.1).1
               recommended_action :=
                 recommendedActionFor
                   (listMean (clusterScores dups (runBFS g a st.1).1)) }])
        else ((runBFS g a st.1).2, st.2) := rfl
  rw [hstep]
  by_cases ha : a ∈ st.1
  · rw [if_pos ha]
    exact ⟨fun x hx => hx, ha, Or.inl rfl⟩
  · rw [if_neg ha]
    obtain ⟨c1, c2, ⟨t, ht⟩, c4, c5, c6⟩ := runBFS_spec g a st.1 ha
    have hold : ∀ x ∈ st.1, x ∈ (runBFS g a st.1).2 :=
      fun x hx => (c1 x).mpr (Or.inr hx)
    have hself : a ∈ (runBFS g a st.1).2 :=
      (c1 a).mpr (Or.inl (by rw [ht]; exact List.mem_cons_self _ _))
    by_cases hlen : 1 < (runBFS g a st.1).1.length
    · rw [if_pos hlen]
      have hmem : memberIds
          { cluster_id := "cluster_" ++ toString (st.2.length + 1)
            primary_article_id := (runBFS g a st.1).1.headD ""
            duplicate_article_ids := (runBFS g a st.1).1.tail
            similarity_scores := clusterScores dups (runBFS g a st.1).1
            recommended_action :=
              recommendedActionFor
                (listMean (clusterScores dups (runBFS g a st.1).1)) } =
          (runBFS g a st.1).1 := by
        rw [memberIds, ht]
        rfl
      refine ⟨hold, hself, Or.inr ⟨_, rfl, ?_, ?_, ?_⟩⟩
      · rw [ht]
        rfl
      · rw [hmem, ht]
        exact List.mem_cons_self _ _
      · intro x hx
        rw [hmem] at hx
        exact c4 x hx
    · rw [if_neg hlen]
      exact ⟨hold, hself, Or.inl rfl⟩

/-- Across the whole outer loop, every produced cluster's primary is the
first processed key among the cluster's members. -/
theorem foldl_primary_first (g : ConnGraph) (dups : List SimilarityResult) :
    ∀ (ks : List String) (st : List String × List DuplicateCluster),
      ∀ cl ∈ (ks.foldl (clusterStep g dups) st).2,
        cl ∈ st.2 ∨
        (ks.find? (fun k => decide (k ∈ memberIds cl)) =
            some cl.primary_article_id ∧
          ∀ x ∈ memberIds cl, x ∉ st.1) := by
  intro ks
  induction ks with
  | nil =>
    intro st cl hcl
    exact Or.inl hcl
  | cons a rest ih =>
    intro st cl hcl
    rw [List.foldl_cons] at hcl
    obtain ⟨hmono, hself, hout⟩ := clusterStep_cases g dups st a
    rcases ih (clusterStep g dups st a) cl hcl with hmem | ⟨hfind, hdisj⟩
    · rcases hout with he | ⟨cl', he, hprim, hamem, hdisj'⟩
      · rw [he] at hmem
        exact Or.inl hmem
      · rw [he] at hmem
        rcases List.mem_append.mp hmem with h | h
        · exact Or.inl h
        · rw [List.mem_singleton] at h
          subst h
          refine Or.inr ⟨?_, hdisj'⟩
          rw [List.find?_cons_of_pos rest
            (show (fun k => decide (k ∈ memberIds cl)) a = true from
              decide_eq_true hamem)]
          rw [hprim]
    · refine Or.inr ⟨?_, ?_⟩
      · have hSa : ¬ a ∈ memberIds cl :=
          fun hmemA => hdisj a hmemA hself
        rw [List.find?_cons_of_neg rest
          (show ¬ (fun k => decide (k ∈ memberIds cl)) a = true from by
            simp [hSa])]
        exact hfind
      · intro x hx hxst
        exact hdisj x hx (hmono x hxst)

/-- For every produced cluster, the first dict key among its members is
its primary article id. -/
theorem identify_primary_key (rs : List SimilarityResult)
    (c : DuplicateCluster) (hc : c ∈ identify_duplicate_clusters rs) :
    ((buildConnections (rs.filter (fun r => r.is_duplicate))).map
        Prod.fst).find? (fun k => decide (k ∈ memberIds c)) =
      some c.primary_article_id := by
  have hstep : identify_duplicate_clusters rs =
      if (rs.filter (fun r => r.is_duplicate)).isEmpty then []
      else (((buildConnections (rs.filter (fun r => r.is_duplicate))).map
          Prod.fst).foldl
        (clusterStep (buildConnections (rs.filter (fun r => r.is_duplicate)))
          (rs.filter (fun r => r.is_duplicate))) ([], [])).2 := rfl
  by_cases hdup : (rs.filter (fun r => r.is_duplicate)).isEmpty
  · rw [hstep, if_pos hdup] at hc
    exact absurd hc (List.not_mem_nil c)
  · rw [hstep, if_neg hdup] at hc
    rcases foldl_primary_first
        (buildConnections (rs.filter (fun r => r.is_duplicate)))
        (rs.filter (fun r => r.is_duplicate))
        ((buildConnections (rs.filter (fun r => r.is_duplicate))).map Prod.fst)
        ([], []) c hc with h | ⟨hfind, -⟩
    · exact absurd h (List.not_mem_nil c)
    · exact hfind

/-- In a `Pairwise`-sorted list, the element `find?` returns is related to
every other element satisfying the predicate. -/
theorem sorted_find_rel {α : Type} (R : α → α → Prop) (p : α → Bool) :
    ∀ l : List α, l.Pairwise R → ∀ a, l.find? p = some a →
      ∀ b ∈ l, p b = true → a = b ∨ R a b := by
  intro l
  induction l with
  | nil =>
    intro _ a ha
    exact absurd ha (by simp)
  | cons c tl ih =>
    intro hpw a hfind b hb hpb
    obtain ⟨hcall, htl⟩ := List.pairwise_cons.mp hpw
    cases hc : p c
    · rw [List.find?_cons_of_neg tl (by simp [hc])] at hfind
      rcases List.mem_cons.mp hb with he | hb'
      · rw [he] at hpb
        rw [hpb] at hc
        exact Bool.noConfusion hc
      · exact ih htl a hfind b hb' hpb
    · rw [List.find?_cons_of_pos tl hc] at hfind
      injection hfind with h
      subst h
      rcases List.mem_cons.mp hb with he | hb'
      · exact Or.inl he.symm
      · exact Or.inr (hcall b hb')

/-- `find?` returns the element at the first position satisfying the
predicate. -/
theorem find_at_first_index {α : Type} (p : α → Bool) :
    ∀ (l : List α) (i : ℕ) (hi : i < l.length),
      p (l.get ⟨i, hi⟩) = true →
      (∀ j (hj : j < i), p (l.get ⟨j, lt_trans hj hi⟩) = false) →
      l.find? p = some (l.get ⟨i, hi⟩) := by
  intro l
  induction l with
  | nil =>
    intro i hi
    exact absurd hi (by simp)
  | cons a tl ih =>
    intro i hi hp hbefore
    cases i with
    | zero => exact List.find?_cons_of_pos tl hp
    | succ i =>
      have h0 : p a = false := hbefore 0 (Nat.succ_pos i)
      rw [List.find?_cons_of_neg tl (by simp [h0])]
      exact ih i (Nat.lt_of_succ_lt_succ hi) hp
        (fun j hj => hbefore (j + 1) (Nat.succ_lt_succ hj))

/-- Membership in a cluster never separates the endpoints of a duplicate
pair: both ends of each flagged pair lie in the same component. -/
theorem member_closed_of_pair (rs : List SimilarityResult)
    (c : DuplicateCluster) (hc : c ∈ identify_duplicate_clusters rs) :
    ∀ d ∈ rs.filter (fun r => r.is_duplicate),
      decide (d.article_id_1 ∈ memberIds c) =
        decide (d.article_id_2 ∈ memberIds c) := by
  obtain ⟨vis, inv⟩ := identify_inv rs
  intro d hd
  have he12 : graphEdge (buildConnections (rs.filter (fun r => r.is_duplicate)))
      d.article_id_1 d.article_id_2 :=
    (graphEdge_buildConnections _ _ _).mpr ⟨d, hd, Or.inl ⟨rfl, rfl⟩⟩
  have he21 : graphEdge (buildConnections (rs.filter (fun r => r.is_duplicate)))
      d.article_id_2 d.article_id_1 :=
    (graphEdge_buildConnections _ _ _).mpr ⟨d, hd, Or.inr ⟨rfl, rfl⟩⟩
  refine decide_eq_decide.mpr ?_
  constructor
  · intro h1
    exact (inv.component c hc d.article_id_2).mpr
      (Relation.ReflTransGen.tail
        ((inv.component c hc d.article_id_1).mp h1) he12)
  · intro h2
    exact (inv.component c hc d.article_id_1).mpr
      (Relation.ReflTransGen.tail
        ((inv.component c hc d.article_id_2).mp h2) he21)

/-- Over the pair loop's output for a duplicate-free id list, every
cluster's primary is the first id in input order among the cluster's
members. -/
theorem generator_primary_first (ids : List String) (tS cS : ℕ → ℕ → ℚ)
    (thr : ℚ) (hnd : ids.Nodup) (c : DuplicateCluster)
    (hc : c ∈ identify_duplicate_clusters
      (generateSimilarityResults ids tS cS thr)) :
    ids.find? (fun x => decide (x ∈ memberIds c)) =
      some c.primary_article_id := by
  have hdups : (generateSimilarityResults ids tS cS thr).filter
      (fun r => r.is_duplicate) =
      ((pairsBelow ids.length).filter
        (fun p => (mkSimilarityResult ids tS cS thr p).is_duplicate)).map
        (mkSimilarityResult ids tS cS thr) := by
    rw [generateSimilarityResults, List.filter_map]
    rfl
  have hclos := member_closed_of_pair (generateSimilarityResults ids tS cS thr)
    c hc
  have hkeys := keys_find_first (fun x => decide (x ∈ memberIds c))
    ((generateSimilarityResults ids tS cS thr).filter (fun r => r.is_duplicate))
    hclos [] (by intro x hx; simp at hx)
  have hpk := identify_primary_key (generateSimilarityResults ids tS cS thr)
    c hc
  have hcomb : (((generateSimilarityResults ids tS cS thr).filter
        (fun r => r.is_duplicate)).find?
        (fun r => decide (r.article_id_1 ∈ memberIds c))).map
        (fun r => r.article_id_1) = some c.primary_article_id := by
    rw [← hkeys]
    exact hpk
  obtain ⟨dstar, hfound, hdeq⟩ : ∃ dst,
      ((generateSimilarityResults ids tS cS thr).filter
        (fun r => r.is_duplicate)).find?
        (fun r => decide (r.article_id_1 ∈ memberIds c)) = some dst ∧
      dst.article_id_1 = c.primary_article_id := by
    cases hf : ((generateSimilarityResults ids tS cS thr).filter
        (fun r => r.is_duplicate)).find?
        (fun r => decide (r.article_id_1 ∈ memberIds c)) with
    | none =>
      rw [hf] at hcomb
      exact absurd hcomb (by simp)
    | some dst =>
      rw [hf] at hcomb
      simp only [Option.map_some'] at hcomb
      exact ⟨dst, rfl, Option.some.inj hcomb⟩
  rw [hdups, List.find?_map] at hfound
  obtain ⟨pstar, hpfound, hpmk⟩ : ∃ ps,
      ((pairsBelow ids.length).filter
        (fun p => (mkSimilarityResult ids tS cS thr p).is_duplicate)).find?
        ((fun r => decide (r.article_id_1 ∈ memberIds c)) ∘
          mkSimilarityResult ids tS cS thr) = some ps ∧
      mkSimilarityResult ids tS cS thr ps = dstar := by
    cases hf : ((pairsBelow ids.length).filter
        (fun p => (mkSimilarityResult ids tS cS thr p).is_duplicate)).find?
        ((fun r => decide (r.article_id_1 ∈ memberIds c)) ∘
          mkSimilarityResult ids tS cS thr) with
    | none =>
      rw [hf] at hfound
      exact absurd hfound (by simp)
    | some ps =>
      rw [hf] at hfound
      simp only [Option.map_some'] at hfound
      exact ⟨ps, rfl, Option.some.inj hfound⟩
  have hpmem : pstar ∈ (pairsBelow ids.length).filter
      (fun p => (mkSimilarityResult ids tS cS thr p).is_duplicate) :=
    List.mem_of_find?_eq_some hpfound
  have hpair : pstar.1 < pstar.2 ∧ pstar.2 < ids.length :=
    mem_pairsBelow.mp (List.mem_filter.mp hpmem).1
  have hp2 : pstar.2 < ids.length := hpair.2
  have hp1 : pstar.1 < ids.length := lt_trans hpair.1 hp2
  have hpS0 := List.find?_some hpfound
  have hpS : decide ((mkSimilarityResult ids tS cS thr pstar).article_id_1
      ∈ memberIds c) = true := hpS0
  have hgetD : (mkSimilarityResult ids tS cS thr pstar).article_id_1 =
      ids.get ⟨pstar.1, hp1⟩ := by
    show ids.getD pstar.1 "" = ids.get ⟨pstar.1, hp1⟩
    exact (List.getD_eq_getElem ids "" hp1).trans
      (List.get_eq_getElem ids ⟨pstar.1, hp1⟩).symm
  have hSi : decide ((ids.get ⟨pstar.1, hp1⟩) ∈ memberIds c) = true := by
    rw [← hgetD]
    exact hpS
  have hbefore : ∀ j (hj : j < pstar.1),
      decide ((ids.get ⟨j, lt_trans hj hp1⟩) ∈ memberIds c) = false := by
    intro j hj
    by_contra hcon
    have hmemj : ids.get ⟨j, lt_trans hj hp1⟩ ∈ memberIds c := by
      by_contra hmm
      exact hcon (decide_eq_false hmm)
    obtain ⟨vis, inv⟩ := identify_inv (generateSimilarityResults ids tS cS thr)
    obtain ⟨d, hd, hdor⟩ := inv.endpoints c hc _ hmemj
    have hdmem : d ∈ (generateSimilarityResults ids tS cS thr).filter
        (fun r => r.is_duplicate) := hd
    rw [hdups] at hd
    obtain ⟨q, hqP, hqmk⟩ := List.mem_map.mp hd
    have hqpair : q.1 < q.2 ∧ q.2 < ids.length :=
      mem_pairsBelow.mp (List.mem_filter.mp hqP).1
    have hq2 : q.2 < ids.length := hqpair.2
    have hq1 : q.1 < ids.length := lt_trans hqpair.1 hq2
    have hq1get : d.article_id_1 = ids.get ⟨q.1, hq1⟩ := by
      rw [← hqmk]
      show ids.getD q.1 "" = ids.get ⟨q.1, hq1⟩
      exact (List.getD_eq_getElem ids "" hq1).trans
        (List.get_eq_getElem ids ⟨q.1, hq1⟩).symm
    have hq2get : d.article_id_2 = ids.get ⟨q.2, hq2⟩ := by
      rw [← hqmk]
      show ids.getD q.2 "" = ids.get ⟨q.2, hq2⟩
      exact (List.getD_eq_getElem ids "" hq2).trans
        (List.get_eq_getElem ids ⟨q.2, hq2⟩).symm
    have hclosq := hclos d hdmem
    have hq1mem : d.article_id_1 ∈ memberIds c := by
      rcases hdor with h1 | h2
      · rw [h1]
        exact hmemj
      · have h2d : d.article_id_2 ∈ memberIds c := by
          rw [h2]
          exact hmemj
        have h1d : decide (d.article_id_1 ∈ memberIds c) = true := by
          rw [hclosq]
          exact decide_eq_true h2d
        exact of_decide_eq_true h1d
    have hqpred : ((fun r => decide (r.article_id_1 ∈ memberIds c)) ∘
        mkSimilarityResult ids tS cS thr) q = true := by
      show decide ((mkSimilarityResult ids tS cS thr q).article_id_1
        ∈ memberIds c) = true
      rw [hqmk]
      exact decide_eq_true hq1mem
    have hsorted : ((pairsBelow ids.length).filter
        (fun p => (mkSimilarityResult ids tS cS thr p).is_duplicate)).Pairwise
        pairLexLt := (pairsBelow_sorted ids.length).filter _
    have hle : pstar = q ∨ pairLexLt pstar q :=
      sorted_find_rel pairLexLt _ _ hsorted pstar hpfound q hqP hqpred
    have hple : pstar.1 ≤ q.1 := by
      rcases hle with he | h
      · rw [he]
      · rcases h with h | ⟨h, -⟩
        · exact le_of_lt h
        · exact le_of_eq h
    rcases hdor with h1 | h2
    · have hge : ids.get ⟨q.1, hq1⟩ = ids.get ⟨j, lt_trans hj hp1⟩ := by
        rw [← hq1get]
        exact h1
      have hidx : q.1 = j :=
        Fin.mk_eq_mk.mp ((List.Nodup.get_inj_iff hnd).mp hge)
      omega
    · have hge : ids.get ⟨q.2, hq2⟩ = ids.get ⟨j, lt_trans hj hp1⟩ := by
        rw [← hq2get]
        exact h2
      have hidx : q.2 = j :=
        Fin.mk_eq_mk.mp ((List.Nodup.get_inj_iff hnd).mp hge)
      have hq12 := hqpair.1
      omega
  have hfin := find_at_first_index (fun x => decide (x ∈ memberIds c)) ids
    pstar.1 hp1 hSi hbefore
  rw [hfin, ← hgetD, hpmk, hdeq]

/-- C5: for every successful similarity run over articles with distinct
ids, the cluster at position `k` of `identify_duplicate_clusters` carries
the sequential identifier `cluster_(k+1)`, and its primary article id —
the first node visited by that component's BFS — is the first article id
in input order among the cluster's members. -/
theorem cluster_primary_first (A : Analyzer) (articles : List Article)
    (rs : List SimilarityResult) (k : ℕ) (c : DuplicateCluster)
    (hok : calculate_content_similarity A articles = Except.ok rs)
    (hnd : (articles.map (fun a => a.id)).Nodup)
    (hk : (identify_duplicate_clusters rs)[k]? = some c) :
    c.cluster_id = "cluster_" ++ toString (k + 1) ∧
    (articles.map (fun a => a.id)).find?
      (fun x => decide (x ∈ memberIds c)) = some c.primary_article_id := by
  have hc : c ∈ identify_duplicate_clusters rs := List.getElem?_mem hk
  obtain ⟨tS, -, hrs⟩ := calc_ok_inv A articles rs hok
  constructor
  · obtain ⟨vis, inv⟩ := identify_inv rs
    have hklen : k < (identify_duplicate_clusters rs).length :=
      (List.getElem?_eq_some.mp hk).1
    have hmap := congrArg (fun l => l[k]?) inv.ids
    simp only at hmap
    rw [List.getElem?_map, List.getElem?_map, hk,
      List.getElem?_range hklen] at hmap
    simp only [Option.map_some'] at hmap
    exact Option.some.inj hmap
  · rw [hrs] at hc
    exact generator_primary_first (articles.map (fun a => a.id)) tS
      (contentSimilarityMatrix A
        (articles.map (fun a => extract_clean_text A a.body)))
      A.similarity_threshold hnd c hc

/-- An analyzer whose similarity oracles report full similarity, making
every pair a duplicate. -/
def dupAnalyzer : Analyzer :=
  { similarity_threshold := 85/100
    quality_threshold := 7/10
    min_content_length := 50
    max_content_age_days := 365
    normalizeHtml := id
    titleSim := fun _ _ _ => 1
    contentSim := fun _ _ _ => 1 }

/-- First article of the concrete duplicated batch. -/
def dupArticleA : Article :=
  { id := "b1", title := "alpha beta", body := "north" }

/-- Second article of the concrete duplicated batch. -/
def dupArticleB : Article :=
  { id := "b2", title := "gamma delta", body := "south" }

/-- The single similarity result of the duplicated batch. -/
def dupResult : SimilarityResult :=
  { article_id_1 := "b1"
    article_id_2 := "b2"
    title_similarity := 1
    content_similarity := 1
    overall_similarity := 1 * (3/10) + 1 * (7/10)
    is_duplicate := true }

/-- The one cluster the duplicated batch produces. -/
def dupCluster : DuplicateCluster :=
  { cluster_id := "cluster_1"
    primary_article_id := "b1"
    duplicate_article_ids := ["b2"]
    similarity_scores := [1 * (3/10) + 1 * (7/10)]
    recommended_action := "keep_primary" }

/-- Concrete run of the similarity engine on the duplicated batch. -/
theorem calc_dup_eval :
    calculate_content_similarity dupAnalyzer [dupArticleA, dupArticleB] =
      Except.ok [dupResult] := by
  have hv : (tfidfVocab ["alpha beta", "gamma delta"]).isEmpty = false := by
    decide
  have h1 : titleSimilarityMatrix dupAnalyzer ["alpha beta", "gamma delta"] =
      Except.ok (dupAnalyzer.titleSim ["alpha beta", "gamma delta"]) := by
    simp [titleSimilarityMatrix, hv]
  have hta : extract_clean_text dupAnalyzer "north" = "north" := by decide
  have htb : extract_clean_text dupAnalyzer "south" = "south" := by decide
  have hcond : ¬ ((["north", "south"] : List String).isEmpty = true) ∧
      ((["north", "south"] : List String).any
        fun t => !(stripChars t.data).isEmpty) = true := by decide
  have h2 : contentSimilarityMatrix dupAnalyzer ["north", "south"] =
      dupAnalyzer.contentSim ["north", "south"] := by
    rw [contentSimilarityMatrix, if_pos hcond]
  have hpb : pairsBelow 2 = [(0, 1)] := by decide
  simp only [dupArticleA, dupArticleB, dupResult, calculate_content_similarity,
    List.map_cons, List.map_nil, hta, htb]
  rw [h1]
  simp only [Except.map, generateSimilarityResults, List.length_cons,
    List.length_nil, hpb, h2, List.map_cons, List.map_nil, mkSimilarityResult]
  simp only [dupAnalyzer]
  norm_num

/-- Concrete clustering run on the duplicated batch's one result. -/
theorem identify_dup_eval :
    identify_duplicate_clusters [dupResult] = [dupCluster] := by
  simp [identify_duplicate_clusters, buildConnections, addDuplicate, ensureKey,
    appendVal, clusterStep, runBFS, bfsLoop, bfsFuel, graphNodes, adjList,
    enqueueNew, clusterScores, listMean, recommendedActionFor, dupResult,
    dupCluster]
  norm_num
  decide

/-- Witness for C5 at the duplicated two-article batch. -/
theorem cluster_primary_first_witness :
    dupCluster.cluster_id = "cluster_" ++ toString (0 + 1) ∧
    (([dupArticleA, dupArticleB] : List Article).map (fun a => a.id)).find?
      (fun x => decide (x ∈ memberIds dupCluster)) =
      some dupCluster.primary_article_id :=
  cluster_primary_first dupAnalyzer [dupArticleA, dupArticleB] [dupResult] 0
    dupCluster calc_dup_eval (by decide) (by rw [identify_dup_eval]; rfl)
